import Mathlib

/-!
# Verification of the xdsl-ccpp CAP generation engine and backend text emitter

Shallow embedding of the relevant parts of the repository:

* `src/xdsl_ccpp/transforms/util/typing.py` (`TypeConversions`)
* `src/xdsl_ccpp/transforms/util/ccpp_descriptors.py` (argument/metadata model,
  `BuildMetaDataDescriptions`)
* `src/xdsl_ccpp/transforms/suite_cap.py` (`GenerateSuiteSubroutine`)
* `src/xdsl_ccpp/backend/print_ftn.py` (`ftnPrintContext`)

Python fatal failures (`assert`, `KeyError`, `IndexError`) are modelled with
`Except String`.  Python dicts are modelled as insertion-ordered association
lists (`List (String × α)`) with overwrite-on-insert, matching dict semantics.
-/

namespace CcppModel

/-- Decidable equality of `Except` values (used to evaluate the model on
concrete inputs). -/
instance instDecEqExcept {ε α : Type} [DecidableEq ε] [DecidableEq α] :
    DecidableEq (Except ε α)
  | .error e1, .error e2 =>
    if h : e1 = e2 then .isTrue (by rw [h])
    else .isFalse (fun hh => h (Except.error.inj hh))
  | .error _, .ok _ => .isFalse (fun hh => Except.noConfusion hh)
  | .ok _, .error _ => .isFalse (fun hh => Except.noConfusion hh)
  | .ok a1, .ok a2 =>
    if h : a1 = a2 then .isTrue (by rw [h])
    else .isFalse (fun hh => h (Except.ok.inj hh))

/-- `str.split("=")` on the character list of a string (Python semantics:
every occurrence of the separator splits, empty chunks preserved). -/
def splitEqChar : List Char → List (List Char)
  | [] => [[]]
  | c :: rest =>
    let r := splitEqChar rest
    if c = '=' then [] :: r
    else
      match r with
      | [] => [[c]]
      | hd :: tl => (c :: hd) :: tl

/-- Python `kind.split("=")`. -/
def pySplitEq (s : String) : List String :=
  (splitEqChar s.data).map List.asString

/-- Python `int(s)` on the digit strings the metadata uses (`some` exactly
when the text is one or more decimal digits). -/
def pyParseNat (s : String) : Option Nat :=
  if s.data ≠ [] ∧ s.data.all Char.isDigit then
    some (s.data.foldl (fun a c => 10 * a + (c.toNat - Char.toNat '0')) 0)
  else none

/-- Python-dict style lookup on an association list with `String` keys:
the first binding of the key wins (duplicate keys never arise when inserts
go through `insertAssoc`, which overwrites in place like a Python dict). -/
def alookup {α : Type} : List (String × α) → String → Option α
  | [], _ => none
  | (k', v) :: rest, k => if k' = k then some v else alookup rest k

/-- Python-dict style insert: overwrite the value in place if the key is
present (keeping its original position), otherwise append at the end. -/
def insertAssoc {α : Type} : List (String × α) → String → α → List (String × α)
  | [], k, v => [(k, v)]
  | (k', v') :: rest, k, v =>
    if k' = k then (k, v) :: rest else (k', v') :: insertAssoc rest k v

/-! ## Types (`transforms/util/typing.py`)

`TypeConversions.TEXT_TYPE_TO_MLIR_TYPE = {"character": i8, "integer": i32,
"real": f64}`; `getBaseType` asserts that the textual type is a key of that
table.  A memref type is a base element type plus a static shape. -/

/-- The three MLIR base types the pipeline uses (`builtin.i8`, `builtin.i32`,
`builtin.f64`). -/
inductive BaseTy where
  | i8
  | i32
  | f64
deriving DecidableEq, Repr

/-- A `memref.MemRefType`: element type and static shape. -/
structure MemTy where
  elem : BaseTy
  shape : List Nat
deriving DecidableEq, Repr

/-- `TypeConversions.getBaseType`: maps the textual CCPP type to an MLIR base
type; any other text trips the `assert text_type in ...keys()`. -/
def getBaseType (textType : String) : Except String BaseTy :=
  if textType = "character" then .ok .i8
  else if textType = "integer" then .ok .i32
  else if textType = "real" then .ok .f64
  else .error "assert: text_type not in TEXT_TYPE_TO_MLIR_TYPE"

/-! ## CCPP metadata model (`transforms/util/ccpp_descriptors.py`) -/

/-- `CCPPArgument`: a named argument whose properties (`type`, `kind`,
`intent`, ...) live in the `attrs` dict. -/
structure CCPPArgument where
  name : String
  attrs : List (String × String)
deriving DecidableEq, Repr

/-- `CCPPItem.getAttr`: `assert key in self.attrs; return self.attrs[key]` —
a missing key is a fatal `AssertionError`. -/
def CCPPArgument.getAttr (a : CCPPArgument) (key : String) : Except String String :=
  match alookup a.attrs key with
  | some v => .ok v
  | none => .error ("assert: missing attribute " ++ key)

/-- `CCPPArgumentTable`: named table holding `function_arguments`, an
insertion-ordered dict from argument name to argument.
`getFunctionArguments()` returns the values in insertion order, which is how
`args` is stored here. -/
structure CCPPArgumentTable where
  name : String
  args : List CCPPArgument
deriving DecidableEq, Repr

/-- `CCPPTableProperties`: one per metadata file; owns the `arg_tables` dict
mapping a subroutine name to its `CCPPArgumentTable`. -/
structure CCPPTableProperties where
  name : String
  argTables : List (String × CCPPArgumentTable)
deriving DecidableEq, Repr

/-- `BuildMetaDataDescriptions.traverse_table_properties_op`: walks the
`ccpp.arg_table` children of one `ccpp.table_properties` op in order and
builds the `arg_tables` dict with `arg_tables[k] = v` — a plain dict store,
so a second table with an already-used name silently overwrites the first
(there is no duplicate check in the source). -/
def traverseTableProperties (tables : List CCPPArgumentTable) :
    List (String × CCPPArgumentTable) :=
  tables.foldl (fun acc t => insertAssoc acc t.name t) []

/-! ## Generated operation tree (`transforms/suite_cap.py`)

The generator builds xDSL ops (`memref.AllocaOp`, `arith.ConstantOp`,
`memref.StoreOp`, `memref.LoadOp`, `arith.CmpiOp`, `func.CallOp`,
`memref.CopyOp`, `scf.IfOp`, `scf.YieldOp`, `func.ReturnOp`).  Each allocated
slot is identified by its argument name (the key of the `alloc_ops` dict);
SSA operands referring to an alloca are represented by that slot name, and the
`scf.IfOp`'s condition operand (an `arith.CmpiOp` value) is represented
structurally inside the `ifOp` constructor (slot compared, literal compared
against, predicate index). -/

/-- One operation of the generated subroutine body. -/
inductive SOp where
  /-- `memref.AllocaOp.get(base, shape=...)`, keyed by argument name. -/
  | alloca (slot : String) (ty : MemTy)
  /-- `arith.ConstantOp.from_int_and_width(value, width)`. -/
  | constantOp (value : Int) (width : Nat)
  /-- `memref.StoreOp.get(const, alloca, indices)` — the stored value is the
  integer constant operand. -/
  | storeOp (value : Int) (slot : String) (indices : List String)
  /-- `memref.LoadOp.get(alloca, indices)`. -/
  | loadOp (slot : String) (indices : List String)
  /-- `arith.CmpiOp(load_of_slot, const rhs, predicate)`. -/
  | cmpiOp (lhsSlot : String) (rhs : Int) (pred : Nat)
  /-- `func.CallOp(callee, operand_slots, result_types)`. -/
  | callOp (callee : String) (operands : List String) (resultTypes : List MemTy)
  /-- `memref.CopyOp(call_result[idx], dest_alloca)`. -/
  | copyOp (resultIdx : Nat) (dest : String)
  /-- `scf.YieldOp()`. -/
  | yieldOp
  /-- `scf.IfOp(cmp, [], then_ops, else empty)`; the condition
  `cmp = CmpiOp(load(condSlot), const condRhs, pred)` is kept structurally. -/
  | ifOp (condSlot : String) (condRhs : Int) (pred : Nat)
      (thenOps : List SOp) (elseOps : List SOp)
  /-- `func.ReturnOp(*allocas)`. -/
  | returnOp (slots : List String)

/-- A `func.FuncOp` with a body (the generated suite subroutine). -/
structure FuncOp where
  name : String
  inputs : List MemTy
  outputs : List MemTy
  body : List SOp

/-- A declaration-only `func.FuncOp.external` (scheme signature stub). -/
structure FuncDecl where
  name : String
  inputs : List MemTy
  outputs : List MemTy
deriving DecidableEq, Repr

/-- Suite descriptor recovered by `BuildSchemeDescription`: suite name plus
groups, each an ordered list of scheme names. -/
structure XMLSuite where
  name : String
  groups : List (List String)
deriving DecidableEq, Repr

/-- `GenerateSuiteSubroutine.getSchemeNames`: flatten the suite's groups into
one ordered scheme-name list (group order, then in-group order). -/
def getSchemeNames (suite : XMLSuite) : List String :=
  suite.groups.flatten

/-! ## `GenerateSuiteSubroutine` (suite_cap.py) -/

/-- One iteration of the inner loop of `generateVariableCreation`: a first
occurrence of an argument name registers the argument; a later occurrence
asserts that its `type` attribute equals the stored one (the registering
branch reads no attribute at all). -/
def requireArg (argsRequired : List (String × CCPPArgument)) (fnArg : CCPPArgument) :
    Except String (List (String × CCPPArgument)) :=
  match alookup argsRequired fnArg.name with
  | some stored => do
      let tNew ← fnArg.getAttr "type"
      let tOld ← stored.getAttr "type"
      if tNew = tOld then pure argsRequired
      else .error "assert: inconsistent argument type across schemes"
  | none => pure (argsRequired ++ [(fnArg.name, fnArg)])

/-- One scheme of the `args_required` loop: `arg_tables[scheme_name]` raises
`KeyError` when absent, then the scheme's arguments are folded in
declaration order. -/
def requireSchemeArgs (argTables : List (String × CCPPArgumentTable))
    (acc : List (String × CCPPArgument)) (sn : String) :
    Except String (List (String × CCPPArgument)) := do
  let tbl ← match alookup argTables sn with
    | some t => pure t
    | none => Except.error "KeyError: arg_tables[scheme_name]"
  tbl.args.foldlM requireArg acc

/-- The `args_required` loop of `generateVariableCreation`: schemes in
flattened order, arguments in declaration order. -/
def buildArgsRequired (schemeNames : List String)
    (argTables : List (String × CCPPArgumentTable)) :
    Except String (List (String × CCPPArgument)) :=
  schemeNames.foldlM (requireSchemeArgs argTables) []

/-- The `data_shape` computation of the allocation loop: a `character`
argument gets shape `[int(kind.split("=")[1])]`, everything else is scalar. -/
def allocShape (arg : CCPPArgument) (argType : String) : Except String (List Nat) :=
  if argType = "character" then do
    let kind ← arg.getAttr "kind"
    match (pySplitEq kind).get? 1 with
    | none => .error "IndexError: kind.split sliced at 1"
    | some s =>
      match pyParseNat s with
      | some n => pure [n]
      | none => .error "ValueError: int conversion"
  else pure []

/-- `generateVariableCreation`: build `args_required`, then one
`memref.AllocaOp` per required variable, keyed by argument name, in
first-seen order. -/
def generateVariableCreation (schemeNames : List String)
    (argTables : List (String × CCPPArgumentTable)) :
    Except String (List (String × MemTy)) := do
  let argsRequired ← buildArgsRequired schemeNames argTables
  argsRequired.mapM (fun p => do
    let argType ← p.2.getAttr "type"
    let shape ← allocShape p.2 argType
    let base ← getBaseType argType
    pure (p.1, MemTy.mk base shape))

/-- `generateVariableInitialisations`: a 32-bit literal-zero constant and a
store of it into the `errflg` slot (`data_ops["errflg"]` raises `KeyError`
when no scheme declares `errflg`). -/
def generateVariableInitialisations (dataOps : List (String × MemTy)) :
    Except String (List SOp) :=
  match alookup dataOps "errflg" with
  | some _ => .ok [SOp.constantOp 0 32, SOp.storeOp 0 "errflg" []]
  | none => .error "KeyError: data_ops[errflg]"

/-- Accumulator of the intent loop in `generateSchemeSubroutineCallOps`:
`in_ssa`, `out_types` and `out_tracking`. -/
structure IntentPartition where
  inSsa : List String
  outTypes : List MemTy
  outTracking : List String
deriving DecidableEq, Repr

/-- One argument of the intent loop of `generateSchemeSubroutineCallOps`:
intent `in` or `inout` appends the slot to the operands; intent `out` appends
its type to the result types and the slot to `out_tracking`; any other intent
value falls through both branches and is dropped; a missing intent attribute
is a fatal `AssertionError` inside `getAttr`. -/
def intentStep (dataOps : List (String × MemTy)) (acc : IntentPartition)
    (arg : CCPPArgument) : Except String IntentPartition := do
  let intent ← arg.getAttr "intent"
  if intent = "in" ∨ intent = "inout" then
    match alookup dataOps arg.name with
    | some _ => pure { acc with inSsa := acc.inSsa ++ [arg.name] }
    | none => .error "KeyError: data_ops[arg.name]"
  else if intent = "out" then
    match alookup dataOps arg.name with
    | some ty => pure { acc with outTypes := acc.outTypes ++ [ty],
                                 outTracking := acc.outTracking ++ [arg.name] }
    | none => .error "KeyError: data_ops[arg.name]"
  else pure acc

/-- `generateSchemeSubroutineCallOps`: partition the arguments by intent,
build the `func.CallOp` and the copy-back `memref.CopyOp`s, and wrap the call
plus copies (plus the `scf.YieldOp` terminator) in an `scf.IfOp` whose
condition compares a fresh load of the `errflg` slot with the literal zero
under predicate 0 (`eq`) and whose else-region is empty.  The four returned
ops keep the source's list order `[err_const_comp, cmp, load_op,
conditional_op]`. -/
def generateSchemeSubroutineCallOps (subroutineName : String)
    (argTable : CCPPArgumentTable) (dataOps : List (String × MemTy)) :
    Except String (List SOp) := do
  let part ← argTable.args.foldlM (intentStep dataOps) ⟨[], [], []⟩
  let callOp := SOp.callOp subroutineName part.inSsa part.outTypes
  let storeOps := part.outTracking.enum.map (fun p => SOp.copyOp p.1 p.2)
  match alookup dataOps "errflg" with
  | none => .error "KeyError: data_ops[errflg]"
  | some _ =>
    pure [SOp.constantOp 0 32, SOp.cmpiOp "errflg" 0 0,
          SOp.loadOp "errflg" [],
          SOp.ifOp "errflg" 0 0 ([callOp] ++ storeOps ++ [SOp.yieldOp]) []]

/-- The `arg_tables` loop of `generateSubroutineCall`:
`getArgumentTable(scheme, scheme + postfix)` asserts the scheme is known to
the metadata and indexes its `arg_tables` dict (`KeyError` when absent). -/
def resolveArgTables (metaData : List (String × CCPPTableProperties))
    (tgtPostfix : String) (schemeNames : List String) :
    Except String (List (String × CCPPArgumentTable)) :=
  schemeNames.foldlM
    (fun acc sn => do
      let props ← match alookup metaData sn with
        | some p => pure p
        | none => Except.error "assert: scheme_name not in meta_data"
      let tbl ← match alookup props.argTables (sn ++ tgtPostfix) with
        | some t => pure t
        | none => Except.error "KeyError: getArgTable"
      pure (insertAssoc acc sn tbl))
    ([] : List (String × CCPPArgumentTable))

/-- One iteration of the per-scheme loop of `generateSubroutineCall`: assert
the scheme's signature is in the pool, generate its guarded call block,
append the block's ops flat onto `call_ops` (`call_ops += ...`), and record
the signature in `fn_sigs` unless already present. -/
def schemeCallStep (metaFnSigs : List (String × FuncDecl)) (tgtPostfix : String)
    (argTables : List (String × CCPPArgumentTable)) (dataOps : List (String × MemTy))
    (acc : List SOp × List (String × FuncDecl)) (sn : String) :
    Except String (List SOp × List (String × FuncDecl)) := do
  let sig ← match alookup metaFnSigs (sn ++ tgtPostfix) with
    | some s => pure s
    | none => Except.error "assert: scheme+postfix not in meta_fn_sigs"
  let _tbl ← match alookup argTables sn with
    | some t => pure t
    | none => Except.error "KeyError: arg_tables[scheme_name]"
  let ops ← generateSchemeSubroutineCallOps (sn ++ tgtPostfix) _tbl dataOps
  let sigs := if (alookup acc.2 (sn ++ tgtPostfix)).isSome then acc.2
              else acc.2 ++ [(sn ++ tgtPostfix, sig)]
  pure (acc.1 ++ ops, sigs)

/-- `generateSubroutineCall`: the whole phase generator.  Resolves every
scheme's argument table for `<scheme><tgt_postfix>`, allocates the shared
variable set, emits the `errflg` initialisation, appends every scheme's
guarded call block flat onto `call_ops` (`call_ops += ...`), collects the
deduplicated signature stubs, and closes the body with a `func.ReturnOp`
listing every allocated slot.  The subroutine is named
`<suite-name>_suite<generated_postfix>` with no inputs and one output per
allocated variable. -/
def generateSubroutineCall (metaData : List (String × CCPPTableProperties))
    (metaFnSigs : List (String × FuncDecl)) (suite : XMLSuite)
    (tgtPostfix : String) (genPostfixOpt : Option String := none) :
    Except String (FuncOp × List FuncDecl) := do
  let genPostfix := genPostfixOpt.getD tgtPostfix
  let schemeNames := getSchemeNames suite
  let argTables ← resolveArgTables metaData tgtPostfix schemeNames
  let dataOps ← generateVariableCreation schemeNames argTables
  let initOps ← generateVariableInitialisations dataOps
  let acc ← schemeNames.foldlM (schemeCallStep metaFnSigs tgtPostfix argTables dataOps) ([], [])
  let bodyOps := dataOps.map (fun p => SOp.alloca p.1 p.2)
      ++ initOps ++ acc.1
      ++ [SOp.returnOp (dataOps.map (·.1))]
  let returnTypes := dataOps.map (·.2)
  pure ({ name := suite.name ++ "_suite" ++ genPostfix,
          inputs := [], outputs := returnTypes, body := bodyOps },
        acc.2.map (·.2))

/-! ## Structural and behavioural observations on the generated tree -/

mutual
/-- Conditional nesting depth of a single operation: an `scf.IfOp` is one
level plus the depth of its deepest region; everything else contributes 0. -/
def condDepth : SOp → Nat
  | .ifOp _ _ _ t e => 1 + Nat.max (condDepthList t) (condDepthList e)
  | _ => 0

/-- Conditional nesting depth of an op sequence (maximum over its ops). -/
def condDepthList : List SOp → Nat
  | [] => 0
  | o :: rest => Nat.max (condDepth o) (condDepthList rest)
end

/-- Run-time state for executing a generated body: scalar contents of the
named slots, the results of the most recent call (fed to the following
`memref.CopyOp`s), and the trace of callees invoked so far. -/
structure ExecState where
  env : String → Int
  lastResults : List Int
  calls : List String

/-- `arith.cmpi` predicate evaluation (predicate 0 = `eq` is the only one the
generator emits; the signed relational ones are included for completeness and
the unsigned variants fall to `false` as they are never generated). -/
def cmpiEval (pred : Nat) (a b : Int) : Bool :=
  match pred with
  | 0 => a = b
  | 1 => a ≠ b
  | 2 => a < b
  | 3 => a ≤ b
  | 4 => b < a
  | 5 => b ≤ a
  | _ => false

mutual
/-- Execute one generated op.  Pure value-producing ops (`alloca`, constants,
loads, comparisons, yields, the terminal return) do not change the state;
stores and copies write slots; a call records its callee and its results
(scheme behaviour is the parameter `schemeFn`); a conditional executes the
region selected by its guard. -/
def execOp (schemeFn : String → List Int → List Int) : SOp → ExecState → ExecState
  | .storeOp v slot _, s =>
      { s with env := fun n => if n = slot then v else s.env n }
  | .callOp callee operands _, s =>
      { s with lastResults := schemeFn callee (operands.map s.env),
               calls := s.calls ++ [callee] }
  | .copyOp i dest, s =>
      { s with env := fun n => if n = dest then s.lastResults.getD i 0 else s.env n }
  | .ifOp slot rhs pred t e, s =>
      if cmpiEval pred (s.env slot) rhs then execOps schemeFn t s
      else execOps schemeFn e s
  | _, s => s

/-- Execute a generated op sequence in source order. -/
def execOps (schemeFn : String → List Int → List Int) : List SOp → ExecState → ExecState
  | [], s => s
  | o :: rest, s => execOps schemeFn rest (execOp schemeFn o s)
end

/-! ## Concrete inputs used by witnesses and counterexamples

The two-scheme scenario: suite `S` has one group with schemes `A` and `B`;
`A_init` declares `x : real, intent in` and `errflg : integer, intent out`;
`B_init` declares the same two plus `y : real, intent out`. -/

/-- `A_init`'s argument table. -/
def tblA : CCPPArgumentTable :=
  ⟨"A_init",
   [⟨"x", [("type", "real"), ("intent", "in")]⟩,
    ⟨"errflg", [("type", "integer"), ("intent", "out")]⟩]⟩

/-- `B_init`'s argument table. -/
def tblB : CCPPArgumentTable :=
  ⟨"B_init",
   [⟨"x", [("type", "real"), ("intent", "in")]⟩,
    ⟨"errflg", [("type", "integer"), ("intent", "out")]⟩,
    ⟨"y", [("type", "real"), ("intent", "out")]⟩]⟩

/-- Metadata pool for the two-scheme scenario. -/
def metaAB : List (String × CCPPTableProperties) :=
  [("A", ⟨"A", [("A_init", tblA)]⟩), ("B", ⟨"B", [("B_init", tblB)]⟩)]

/-- Signature pool for the two-scheme scenario. -/
def sigsAB : List (String × FuncDecl) :=
  [("A_init", ⟨"A_init", [⟨.f64, []⟩], [⟨.i32, []⟩]⟩),
   ("B_init", ⟨"B_init", [⟨.f64, []⟩], [⟨.i32, []⟩, ⟨.f64, []⟩]⟩)]

/-- Suite `S` with one group holding schemes `A` then `B`. -/
def suiteS : XMLSuite := ⟨"S", [["A", "B"]]⟩

/-- The init-phase generator run on the two-scheme scenario. -/
def genAB : Except String (FuncOp × List FuncDecl) :=
  generateSubroutineCall metaAB sigsAB suiteS "_init" (some "_initialize")

/-! ## Backend text emitter (`backend/print_ftn.py`)

`ftnPrintContext` holds the indentation text (`_prefix`), the `variables`
dict mapping SSA values to chosen names, the synthesised-name `_counter`,
and the operator tables `_binops` / `_cmp_ops`.  Output is modelled as the
list of printed lines returned by each printing function instead of an IO
stream. -/

/-- An SSA value as the emitter sees it: an identity plus the optional
author-supplied `name_hint` the value carries. -/
structure SSAVal where
  id : Nat
  nameHint : Option String
deriving DecidableEq, Repr

/-- Lookup in the `variables` dict (keys are SSA values). -/
def vlookup : List (SSAVal × String) → SSAVal → Option String
  | [], _ => none
  | (k', v) :: rest, k => if k' = k then some v else vlookup rest k

/-- The emitter context (`ftnPrintContext`). -/
structure FtnCtx where
  indentPfx : String := ""
  vars : List (SSAVal × String) := []
  counter : Nat := 0
  binops : List (String × String) := []
  cmpOps : List (String × List (String × Option String)) := []

/-- `ftnPrintContext._INDENT`. -/
def INDENT : String := "  "

/-- `arith.CMPI_COMPARISON_OPERATIONS` from xDSL (index = predicate value). -/
def CMPI_COMPARISON_OPERATIONS : List String :=
  ["eq", "ne", "slt", "sle", "sgt", "sge", "ult", "ule", "ugt", "uge"]

/-- `register_binops`: fills the `_binops` and `_cmp_ops` tables. -/
def registerBinops (ctx : FtnCtx) : FtnCtx :=
  { ctx with
    binops := [("arith.addf", "+"), ("arith.addi", "+"), ("arith.mulf", "*"),
               ("arith.muli", "*"), ("arith.divf", "/"), ("arith.divsi", "/"),
               ("arith.divui", "/"), ("arith.subf", "-"), ("arith.subi", "-"),
               ("arith.remsi", "%"), ("arith.remui", "%"), ("arith.shli", "<<"),
               ("arith.andi", "&"), ("arith.ori", "|")],
    cmpOps := [("arith.cmpi",
                [("eq", some ".eq."), ("ne", some ".ne."), ("slt", some ".lt."),
                 ("sle", some ".le."), ("sgt", some ".gt."), ("sge", some ".ge."),
                 ("ult", some ".lt."), ("ule", some ".le."), ("ugt", some ".gt."),
                 ("uge", some ".ge.")]),
               ("arith.cmpf",
                [("false", none), ("oeq", some "=="), ("ogt", some ">"),
                 ("oge", some ">="), ("olt", some "<"), ("ole", some "<="),
                 ("one", some "!="), ("ord", none), ("ueq", some "=="),
                 ("ugt", some ">"), ("uge", some ">="), ("ult", some "<"),
                 ("ule", some "<="), ("une", some "!="), ("uno", none),
                 ("true", none)])] }

/-- The `while name in taken_names` loop of `_get_variable_name_for`:
candidate names are `pre ++ repr counter` for `counter, counter+1, ...`; the
counter field ends one past the accepted candidate.  The structural `fuel`
argument bounds the search; callers pass `taken.length + 1`, which
`freshNameAux_finds_free` proves sufficient (the source's loop always
terminates because distinct counters give distinct decimal strings). -/
def freshNameAux (pre : String) (taken : List String) : Nat → Nat → String × Nat
  | 0, counter => (pre ++ Nat.repr counter, counter + 1)
  | fuel+1, counter =>
    let name := pre ++ Nat.repr counter
    if name ∈ taken then freshNameAux pre taken fuel (counter + 1)
    else (name, counter + 1)

/-- `ftnPrintContext._get_variable_name_for`: an already-bound value keeps
its name and leaves the context untouched; otherwise the effective hint
(the supplied one, defaulting to the value's own `name_hint`) is used
verbatim when it is not among the taken names; otherwise a name
`<prefix><counter>` is synthesised, where the prefix is the value's own
`name_hint` when present and `"v"` otherwise (the supplied hint plays no
part in the prefix), incrementing the counter until an unused name is
found.  The new binding is appended to `variables`. -/
def getVariableNameFor (ctx : FtnCtx) (val : SSAVal) (hint : Option String := none) :
    String × FtnCtx :=
  match vlookup ctx.vars val with
  | some name => (name, ctx)
  | none =>
    let taken := ctx.vars.map (·.2)
    let hint' := match hint with
      | none => val.nameHint
      | some h => some h
    match hint' with
    | some h =>
      if h ∈ taken then
        let pre := match val.nameHint with | none => "v" | some nh => nh
        let nc := freshNameAux pre taken (taken.length + 1) ctx.counter
        (nc.1, { ctx with vars := ctx.vars ++ [(val, nc.1)], counter := nc.2 })
      else (h, { ctx with vars := ctx.vars ++ [(val, h)] })
    | none =>
      let pre := match val.nameHint with | none => "v" | some nh => nh
      let nc := freshNameAux pre taken (taken.length + 1) ctx.counter
      (nc.1, { ctx with vars := ctx.vars ++ [(val, nc.1)], counter := nc.2 })

/-- `ftnPrintContext.descend`: the child context gets a copy of the
`variables` dict, the parent's current counter value, the operator tables,
and one more indentation level; the parent context itself is left to
continue unchanged after the `with` block. -/
def descend (ctx : FtnCtx) : FtnCtx :=
  { indentPfx := ctx.indentPfx ++ INDENT,
    vars := ctx.vars,
    counter := ctx.counter,
    binops := ctx.binops,
    cmpOps := ctx.cmpOps }

/-- A value-carrying attribute (`IntegerAttr` / `StringAttr`), the cases
`attribute_value_to_str` can meet through the ops modelled here. -/
inductive AttrVal where
  | intAttr (value : Int) (width : Nat)
  | strAttr (s : String)
deriving DecidableEq, Repr

/-- `attribute_value_to_str`: an `i1` attribute prints as
`str(bool(v)).lower()`, other integers as their decimal text, strings
quoted. -/
def attributeValueToStr : AttrVal → String
  | .intAttr v 1 => if v = 0 then "false" else "true"
  | .intAttr v _ => toString v
  | .strAttr s => "\"" ++ s ++ "\""

/-- The operation producing an expression operand, as matched by
`print_expr`: a constant, a memref load, an integer comparison, or any
other operation kind (which `print_expr` rejects with `assert False`). -/
inductive PExpr where
  | constantOp (value : AttrVal)
  | loadOp (arr : SSAVal) (indices : List SSAVal)
  | cmpiOp (pred : Nat) (lhs rhs : PExpr)
  | otherOp (kind : String)

/-- Python `f"{x}"` on a `str | None` value. -/
def pyShowOpt : Option String → String
  | none => "None"
  | some s => s

/-- `ftnPrintContext.print_expr`: renders the owner op of an expression
operand inline (returning the text fragment it appends to the current
line).  A constant prints its literal; a load prints the bare buffer
variable name, ignoring the indices; an integer comparison looks up the
predicate mnemonic by index (`IndexError` when out of range), renders the
left operand, looks the mnemonic up in the `_cmp_ops` table (`KeyError`
when unregistered), and renders the right operand; anything else hits
`assert False`.  `none` models the abort. -/
def printExpr (ctx : FtnCtx) : PExpr → Option (String × FtnCtx)
  | .constantOp v => some (attributeValueToStr v, ctx)
  | .loadOp arr _ => some (getVariableNameFor ctx arr)
  | .cmpiOp pred l r =>
    match CMPI_COMPARISON_OPERATIONS.get? pred with
    | none => none
    | some strPred =>
      match printExpr ctx l with
      | none => none
      | some (ls, ctx1) =>
        match alookup ctx1.cmpOps "arith.cmpi" with
        | none => none
        | some tbl =>
          match alookup tbl strPred with
          | none => none
          | some symOpt =>
            match printExpr ctx1 r with
            | none => none
            | some (rs, ctx2) =>
              some (ls ++ " " ++ pyShowOpt symOpt ++ " " ++ rs, ctx2)
  | .otherOp _ => none

/-- Name a list of SSA values left to right, threading the context
(`", ".join(map(self._get_variable_name_for, idxs))`). -/
def nameAll (ctx : FtnCtx) : List SSAVal → List String × FtnCtx
  | [] => ([], ctx)
  | v :: rest =>
    let nctx := getVariableNameFor ctx v
    let rest' := nameAll nctx.2 rest
    (nctx.1 :: rest'.1, rest'.2)

/-- Block-level operations as dispatched by `print_op`.  `exprOp` stands for
a value-producing expression op (`arith.ConstantOp`, `memref.LoadOp`,
`arith.CmpiOp`) sitting directly in a block: `print_op` has no case for
these, so they fall through the match and print nothing.  The remaining
`print_op` cases that no claim touches (`memref.AllocaOp` return-argument
naming, `func.FuncOp` framing, `func.CallOp`) are left out of this partial
embedding. -/
inductive POp where
  | exprOp (e : PExpr)
  | storeOp (value : PExpr) (arr : SSAVal) (indices : List SSAVal)
  | ifPOp (cond : PExpr) (thenOps : List POp) (elseOps : List POp)

mutual
/-- `ftnPrintContext.print_op` (the cases reached by the claims): a store
prints one line `var = expr` / `var[idx, ...] = expr` with the stored
value's text rendered inline by `print_expr`; a conditional prints its
header with the test rendered inline, its regions under `descend`ed child
contexts whose final state is discarded, and `end if`; an expression op
matches no case and prints nothing. -/
def printOp (ctx : FtnCtx) : POp → Option (List String × FtnCtx)
  | .exprOp _ => some ([], ctx)
  | .storeOp val arr idxs =>
    let actx := getVariableNameFor ctx arr
    let ictx := nameAll actx.2 idxs
    let idxArgs := String.intercalate ", " ictx.1
    let head := if idxArgs.length > 0 then actx.1 ++ "[" ++ idxArgs ++ "] = "
                else actx.1 ++ " = "
    match printExpr ictx.2 val with
    | none => none
    | some (vs, ctx3) => some ([ctx3.indentPfx ++ head ++ vs], ctx3)
  | .ifPOp cond t e =>
    match printExpr ctx cond with
    | none => none
    | some (cs, ctx1) =>
      match printBlock (descend ctx1) t with
      | none => none
      | some (thenLines, _) =>
        let headLine := ctx.indentPfx ++ "if (" ++ cs ++ ") then"
        if e.isEmpty then
          some ([headLine] ++ thenLines ++ [ctx1.indentPfx ++ "end if"], ctx1)
        else
          match printBlock (descend ctx1) e with
          | none => none
          | some (elseLines, _) =>
            some ([headLine] ++ thenLines ++ [ctx1.indentPfx ++ "else"]
                  ++ elseLines ++ [ctx1.indentPfx ++ "end if"], ctx1)

/-- `ftnPrintContext.print_block`: print the ops of a block in order. -/
def printBlock (ctx : FtnCtx) : List POp → Option (List String × FtnCtx)
  | [] => some ([], ctx)
  | op :: rest =>
    match printOp ctx op with
    | none => none
    | some (ls, ctx1) =>
      match printBlock ctx1 rest with
      | none => none
      | some (ls', ctx2) => some (ls ++ ls', ctx2)
end

/-! ## Shape predicates for the generated body -/

/-- The two initialisation ops emitted by `generateVariableInitialisations`:
a 32-bit literal zero and its store into the `errflg` slot. -/
def initShape : List SOp := [SOp.constantOp 0 32, SOp.storeOp 0 "errflg" []]

/-- Shape of the four ops emitted per scheme by
`generateSchemeSubroutineCallOps`: the comparison constant, the comparison,
the fresh load of `errflg`, and the conditional testing `errflg == 0` whose
then-region is exactly the call, the copy-backs (one per tracked output, in
result order), and the terminator — and whose else-region is empty. -/
def schemeGroupShape (callee : String) (ops : List SOp) : Prop :=
  ∃ ins outs tracking,
    outs.length = tracking.length ∧
    ops = [SOp.constantOp 0 32, SOp.cmpiOp "errflg" 0 0, SOp.loadOp "errflg" [],
           SOp.ifOp "errflg" 0 0
             ([SOp.callOp callee ins outs]
               ++ (tracking : List String).enum.map (fun p => SOp.copyOp p.1 p.2)
               ++ [SOp.yieldOp]) []]

/-- All-zero start state for executing a generated body. -/
def initState : ExecState := ⟨fun _ => 0, [], []⟩

/-! ## Further concrete inputs for witnesses and counterexamples -/

/-- A scheme argument table with an `inout` argument (`x`) and an `out`
`errflg`. -/
def tblInout : CCPPArgumentTable :=
  ⟨"P_init",
   [⟨"x", [("type", "real"), ("intent", "inout")]⟩,
    ⟨"errflg", [("type", "integer"), ("intent", "out")]⟩]⟩

/-- A scheme argument table whose argument `x` carries no intent attribute. -/
def tblNoIntent : CCPPArgumentTable :=
  ⟨"Q_init",
   [⟨"x", [("type", "real")]⟩,
    ⟨"errflg", [("type", "integer"), ("intent", "out")]⟩]⟩

/-- Slot map matching `tblInout` / `tblNoIntent`. -/
def dataOpsPQ : List (String × MemTy) :=
  [("x", ⟨.f64, []⟩), ("errflg", ⟨.i32, []⟩)]

/-- Two schemes agreeing on `x`'s type (`character`) but with different
kinds (`len=3` vs `len=5`). -/
def tblK1 : CCPPArgumentTable :=
  ⟨"K1_init",
   [⟨"x", [("type", "character"), ("kind", "len=3"), ("intent", "in")]⟩,
    ⟨"errflg", [("type", "integer"), ("intent", "out")]⟩]⟩

/-- Second kind-mismatched table (see `tblK1`). -/
def tblK2 : CCPPArgumentTable :=
  ⟨"K2_init",
   [⟨"x", [("type", "character"), ("kind", "len=5"), ("intent", "in")]⟩,
    ⟨"errflg", [("type", "integer"), ("intent", "out")]⟩]⟩

/-- Metadata pool for the kind-mismatch scenario. -/
def metaKK : List (String × CCPPTableProperties) :=
  [("K1", ⟨"K1", [("K1_init", tblK1)]⟩), ("K2", ⟨"K2", [("K2_init", tblK2)]⟩)]

/-- Signature pool for the kind-mismatch scenario. -/
def sigsKK : List (String × FuncDecl) :=
  [("K1_init", ⟨"K1_init", [⟨.i8, [3]⟩], [⟨.i32, []⟩]⟩),
   ("K2_init", ⟨"K2_init", [⟨.i8, [5]⟩], [⟨.i32, []⟩]⟩)]

/-- Suite holding the two kind-mismatched schemes. -/
def suiteKK : XMLSuite := ⟨"K", [["K1", "K2"]]⟩

/-- Generator run on the kind-mismatch scenario. -/
def genKK : Except String (FuncOp × List FuncDecl) :=
  generateSubroutineCall metaKK sigsKK suiteKK "_init"

/-- Tables whose shared argument `x` has two different declared types
(`real` in `T1_init` vs `integer` in `T2_init`). -/
def tblT1 : CCPPArgumentTable :=
  ⟨"T1_init",
   [⟨"x", [("type", "real"), ("intent", "in")]⟩,
    ⟨"errflg", [("type", "integer"), ("intent", "out")]⟩]⟩

/-- Second type-mismatched table (see `tblT1`). -/
def tblT2 : CCPPArgumentTable :=
  ⟨"T2_init",
   [⟨"x", [("type", "integer"), ("intent", "in")]⟩,
    ⟨"errflg", [("type", "integer"), ("intent", "out")]⟩]⟩

/-- Metadata pool for the type-mismatch scenario. -/
def metaTT : List (String × CCPPTableProperties) :=
  [("T1", ⟨"T1", [("T1_init", tblT1)]⟩), ("T2", ⟨"T2", [("T2_init", tblT2)]⟩)]

/-- Signature pool for the type-mismatch scenario. -/
def sigsTT : List (String × FuncDecl) :=
  [("T1_init", ⟨"T1_init", [⟨.f64, []⟩], [⟨.i32, []⟩]⟩),
   ("T2_init", ⟨"T2_init", [⟨.i32, []⟩], [⟨.i32, []⟩]⟩)]

/-- Suite holding the two type-mismatched schemes. -/
def suiteTT : XMLSuite := ⟨"T", [["T1", "T2"]]⟩

/-- Generator run on the type-mismatch scenario. -/
def genTT : Except String (FuncOp × List FuncDecl) :=
  generateSubroutineCall metaTT sigsTT suiteTT "_init"

/-- An SSA value bound to the name `errflg` in the emitter examples. -/
def vErrflg : SSAVal := ⟨0, none⟩

/-- Emitter context with `errflg` already bound (as `print_op`'s
`memref.AllocaOp` case does for returned allocas) and the operator tables
registered. -/
def emitCtx : FtnCtx := registerBinops { vars := [(vErrflg, "errflg")] }

/-- Two fresh SSA values used by the scoping examples. -/
def vChild : SSAVal := ⟨1, none⟩

/-- See `vChild`. -/
def vParent : SSAVal := ⟨2, none⟩

/-- Parent context of the scope-isolation scenario: one outer binding. -/
def pCtx : FtnCtx := { vars := [(vErrflg, "x")] }

/-- Duplicate-named argument tables for the metadata-unit scenario: both are
called `dup` but hold different arguments. -/
def dupT1 : CCPPArgumentTable := ⟨"dup", [⟨"a", [("type", "real")]⟩]⟩

/-- See `dupT1`. -/
def dupT2 : CCPPArgumentTable := ⟨"dup", [⟨"b", [("type", "integer")]⟩]⟩

/-- Success test on the generator's result, used by concrete witnesses. -/
def exIsOk {α : Type} : Except String α → Bool
  | .ok _ => true
  | .error _ => false

/-- Conditional nesting depth of the subroutine body generated for the
two-scheme scenario (0 when generation fails). -/
def genABdepth : Nat :=
  match genAB with
  | .ok p => condDepthList p.1.body
  | .error _ => 0

/-! ## Decimal representation facts

The fresh-name loop of `_get_variable_name_for` terminates and returns an
unused name because distinct counters yield distinct decimal strings.  We
prove `Nat.repr` injective by a round-trip through the decimal value of a
digit list. -/

/-- Decimal value of one digit character. -/
def digitVal (c : Char) : Nat := c.toNat - Char.toNat '0'

/-- Decimal value of a most-significant-first digit list. -/
def digitsVal (l : List Char) : Nat := l.foldl (fun a c => 10 * a + digitVal c) 0

theorem digitVal_digitChar (m : Nat) (h : m < 10) : digitVal (Nat.digitChar m) = m := by
  interval_cases m <;> decide

theorem digitsVal_append_singleton (l : List Char) (c : Char) :
    digitsVal (l ++ [c]) = 10 * digitsVal l + digitVal c := by
  simp [digitsVal, List.foldl_append]

theorem toDigitsCore_spec :
    ∀ (fuel n : Nat) (ds : List Char), 0 < fuel → n < 10 ^ fuel →
      ∃ pre, Nat.toDigitsCore 10 fuel n ds = pre ++ ds ∧ pre ≠ [] ∧ digitsVal pre = n := by
  intro fuel
  induction fuel with
  | zero => intro n ds h; omega
  | succ f ih =>
    intro n ds _ hlt
    by_cases hz : n / 10 = 0
    · refine ⟨[Nat.digitChar (n % 10)], ?_, by simp, ?_⟩
      · simp [Nat.toDigitsCore, hz]
      · have hn : n < 10 := (Nat.div_eq_zero_iff (by norm_num)).1 hz
        have : n % 10 = n := Nat.mod_eq_of_lt hn
        simp [digitsVal, digitVal_digitChar, this, hn]
    · have hten : 10 ≤ n := by
        by_contra hc
        exact hz ((Nat.div_eq_zero_iff (by norm_num)).2 (by omega))
      have hf : 0 < f := by
        rcases Nat.eq_zero_or_pos f with h0 | h
        · subst h0; simp at hlt; omega
        · exact h
      have hdiv : n / 10 < 10 ^ f := by
        rw [Nat.div_lt_iff_lt_mul (by norm_num : 0 < 10)]
        calc n < 10 ^ (f + 1) := hlt
          _ = 10 ^ f * 10 := by rw [pow_succ]
      obtain ⟨pre, heq, hne, hval⟩ := ih (n / 10) (Nat.digitChar (n % 10) :: ds) hf hdiv
      refine ⟨pre ++ [Nat.digitChar (n % 10)], ?_, by simp, ?_⟩
      · simp only [Nat.toDigitsCore, hz, if_false]
        rw [heq, List.append_assoc]
        simp
      · rw [digitsVal_append_singleton, hval,
            digitVal_digitChar (n % 10) (Nat.mod_lt n (by norm_num))]
        omega

theorem digitsVal_toDigits (n : Nat) : digitsVal (Nat.toDigits 10 n) = n := by
  have hpow : n < 10 ^ (n + 1) := by
    calc n < 2 ^ n := Nat.lt_two_pow n
      _ ≤ 10 ^ n := Nat.pow_le_pow_left (by norm_num) n
      _ ≤ 10 ^ (n + 1) := Nat.pow_le_pow_right (by norm_num) (Nat.le_succ n)
  obtain ⟨pre, heq, _, hval⟩ := toDigitsCore_spec (n + 1) n [] (Nat.succ_pos n) hpow
  rw [Nat.toDigits, heq]
  simpa using hval

theorem natRepr_injective : Function.Injective Nat.repr := by
  intro m n h
  have hd : Nat.toDigits 10 m = Nat.toDigits 10 n := by
    have h2 := congrArg String.data h
    simpa [Nat.repr, List.asString] using h2
  have h3 := congrArg digitsVal hd
  simpa [digitsVal_toDigits] using h3

theorem candidate_injective (pre : String) :
    Function.Injective (fun k => pre ++ Nat.repr k) := by
  intro a b h
  apply natRepr_injective
  have hd := congrArg String.data h
  simp only [String.data_append] at hd
  have h2 := List.append_cancel_left hd
  cases hr : Nat.repr a
  cases hs : Nat.repr b
  simp_all

/-- Pigeonhole: among the `taken.length + 1` candidate counters starting at
`c`, at least one yields a name outside `taken`. -/
theorem exists_free_candidate (pre : String) (taken : List String) (c : Nat) :
    ∃ k, c ≤ k ∧ k ≤ c + taken.length ∧ pre ++ Nat.repr k ∉ taken := by
  by_contra hcon
  push_neg at hcon
  have hmaps : ∀ k ∈ Finset.Icc c (c + taken.length),
      (fun k => pre ++ Nat.repr k) k ∈ taken.toFinset := by
    intro k hk
    rw [Finset.mem_Icc] at hk
    exact List.mem_toFinset.2 (hcon k hk.1 hk.2)
  have hinj : Set.InjOn (fun k => pre ++ Nat.repr k)
      (Finset.Icc c (c + taken.length)) :=
    fun a _ b _ hab => candidate_injective pre hab
  have hcard := Finset.card_le_card_of_injOn _ hmaps hinj
  rw [Nat.card_Icc] at hcard
  have h2 : taken.toFinset.card ≤ taken.length := List.toFinset_card_le taken
  omega

/-- If some candidate within the fuel budget is free, the loop exits with a
name outside `taken`. -/
theorem freshNameAux_spec (pre : String) (taken : List String) :
    ∀ (fuel c k : Nat), c ≤ k → k ≤ c + fuel → pre ++ Nat.repr k ∉ taken →
      (freshNameAux pre taken fuel c).1 ∉ taken := by
  intro fuel
  induction fuel with
  | zero =>
    intro c k h1 h2 h3
    have : k = c := by omega
    subst this
    simpa [freshNameAux] using h3
  | succ f ih =>
    intro c k h1 h2 h3
    by_cases hc : pre ++ Nat.repr c ∈ taken
    · have hk : c + 1 ≤ k := by
        rcases Nat.eq_or_lt_of_le h1 with he | hl
        · subst he; exact absurd hc h3
        · omega
      simpa [freshNameAux, hc] using ih (c + 1) k hk (by omega) h3
    · simp [freshNameAux, hc]

/-- The fresh-name search with the fuel used by `getVariableNameFor` always
returns a name not yet taken (the source's `while` loop always finds one). -/
theorem freshName_not_taken (pre : String) (taken : List String) (c : Nat) :
    (freshNameAux pre taken (taken.length + 1) c).1 ∉ taken := by
  obtain ⟨k, h1, h2, h3⟩ := exists_free_candidate pre taken c
  exact freshNameAux_spec pre taken (taken.length + 1) c k h1 (by omega) h3

/-! ## Naming-context lemmas -/

theorem vlookup_append_self (l : List (SSAVal × String)) (val : SSAVal) (n : String)
    (h : vlookup l val = none) : vlookup (l ++ [(val, n)]) val = some n := by
  induction l with
  | nil => simp [vlookup]
  | cons p rest ih =>
    simp only [vlookup] at h ⊢
    by_cases hp : p.1 = val
    · rw [if_pos hp] at h; cases h
    · cases p
      simp only [vlookup] at h ⊢
      simp_all [vlookup]

/-- An already-bound value keeps its name and the context is untouched. -/
theorem getVariableNameFor_bound (ctx : FtnCtx) (val : SSAVal) (hint : Option String)
    (name : String) (h : vlookup ctx.vars val = some name) :
    getVariableNameFor ctx val hint = (name, ctx) := by
  simp [getVariableNameFor, h]

/-- An unbound value receives a name that is not yet taken, and the binding
is appended to the `variables` dict (nothing else changes in the dict). -/
theorem getVariableNameFor_unbound (ctx : FtnCtx) (val : SSAVal) (hint : Option String)
    (h : vlookup ctx.vars val = none) :
    (getVariableNameFor ctx val hint).1 ∉ ctx.vars.map (·.2) ∧
    (getVariableNameFor ctx val hint).2.vars =
      ctx.vars ++ [(val, (getVariableNameFor ctx val hint).1)] := by
  simp only [getVariableNameFor, h]
  cases hint with
  | none =>
    cases hnh : val.nameHint with
    | none =>
      simp only []
      exact ⟨freshName_not_taken _ _ _, trivial⟩
    | some nh =>
      by_cases ht : nh ∈ ctx.vars.map (·.2)
      · simp only [ht, if_true]
        exact ⟨freshName_not_taken _ _ _, trivial⟩
      · simp only [ht, if_false]
        exact ⟨not_false, trivial⟩
  | some h0 =>
    by_cases ht : h0 ∈ ctx.vars.map (·.2)
    · simp only [ht, if_true]
      exact ⟨freshName_not_taken _ _ _, trivial⟩
    · simp only [ht, if_false]
      exact ⟨not_false, trivial⟩

/-- Binding names preserves distinctness of all names in the context. -/
theorem getVariableNameFor_nodup (ctx : FtnCtx) (val : SSAVal) (hint : Option String)
    (h : (ctx.vars.map (·.2)).Nodup) :
    (((getVariableNameFor ctx val hint).2).vars.map (·.2)).Nodup := by
  cases hv : vlookup ctx.vars val with
  | some name => rw [getVariableNameFor_bound ctx val hint name hv]; exact h
  | none =>
    obtain ⟨hfree, hvars⟩ := getVariableNameFor_unbound ctx val hint hv
    rw [hvars, List.map_append]
    rw [List.nodup_append]
    refine ⟨h, List.nodup_singleton _, ?_⟩
    intro x hx hmem
    simp only [List.map_cons, List.map_nil, List.mem_singleton] at hmem
    subst hmem
    exact hfree hx

/-! ## Generator shape lemmas -/

theorem exbind_ok {α β : Type} (a : α) (f : α → Except String β) :
    (Except.ok a >>= f) = f a := rfl

theorem exbind_error {α β : Type} (e : String) (f : α → Except String β) :
    ((Except.error e : Except String α) >>= f) = Except.error e := rfl

theorem expure {α : Type} (a : α) : (pure a : Except String α) = Except.ok a := rfl

theorem intentStep_len (dataOps : List (String × MemTy)) (acc : IntentPartition)
    (arg : CCPPArgument) (res : IntentPartition)
    (h : intentStep dataOps acc arg = .ok res)
    (hl : acc.outTypes.length = acc.outTracking.length) :
    res.outTypes.length = res.outTracking.length := by
  unfold intentStep at h
  cases harg : arg.getAttr "intent" with
  | error e => rw [harg, exbind_error] at h; cases h
  | ok intent =>
    rw [harg, exbind_ok] at h
    split at h
    · split at h
      · rw [expure] at h; cases h; simpa using hl
      · cases h
    · split at h
      · split at h
        · rw [expure] at h; cases h; simp [hl]
        · cases h
      · rw [expure] at h; cases h; exact hl

theorem intentFold_len (dataOps : List (String × MemTy)) :
    ∀ (args : List CCPPArgument) (acc part : IntentPartition),
      args.foldlM (intentStep dataOps) acc = .ok part →
      acc.outTypes.length = acc.outTracking.length →
      part.outTypes.length = part.outTracking.length := by
  intro args
  induction args with
  | nil =>
    intro acc part h hl
    rw [List.foldlM_nil, expure] at h
    cases h
    exact hl
  | cons a rest ih =>
    intro acc part h hl
    rw [List.foldlM_cons] at h
    cases hs : intentStep dataOps acc a with
    | error e => rw [hs, exbind_error] at h; cases h
    | ok acc' =>
      rw [hs, exbind_ok] at h
      exact ih acc' part h (intentStep_len dataOps acc a acc' hs hl)

theorem generateSchemeSubroutineCallOps_shape (callee : String)
    (tbl : CCPPArgumentTable) (dataOps : List (String × MemTy)) (ops : List SOp)
    (h : generateSchemeSubroutineCallOps callee tbl dataOps = .ok ops) :
    schemeGroupShape callee ops := by
  unfold generateSchemeSubroutineCallOps at h
  cases hp : tbl.args.foldlM (intentStep dataOps) ⟨[], [], []⟩ with
  | error e => rw [hp, exbind_error] at h; cases h
  | ok part =>
    rw [hp, exbind_ok] at h
    cases he : alookup dataOps "errflg" with
    | none => simp only [he] at h; cases h
    | some ty =>
      simp only [he, expure] at h
      cases h
      exact ⟨part.inSsa, part.outTypes, part.outTracking,
             intentFold_len dataOps tbl.args ⟨[], [], []⟩ part hp rfl, rfl⟩

theorem schemeCallStep_char (metaFnSigs : List (String × FuncDecl)) (tgt : String)
    (argTables : List (String × CCPPArgumentTable)) (dataOps : List (String × MemTy))
    (acc : List SOp × List (String × FuncDecl)) (sn : String)
    (acc' : List SOp × List (String × FuncDecl))
    (h : schemeCallStep metaFnSigs tgt argTables dataOps acc sn = .ok acc') :
    ∃ ops, schemeGroupShape (sn ++ tgt) ops ∧ acc'.1 = acc.1 ++ ops := by
  unfold schemeCallStep at h
  cases h1 : alookup metaFnSigs (sn ++ tgt) with
  | none => simp only [h1, exbind_error] at h; cases h
  | some sig =>
    simp only [h1, expure, exbind_ok] at h
    cases h2 : alookup argTables sn with
    | none => simp only [h2, exbind_error] at h; cases h
    | some tbl =>
      simp only [h2, expure, exbind_ok] at h
      cases h3 : generateSchemeSubroutineCallOps (sn ++ tgt) tbl dataOps with
      | error e => rw [h3, exbind_error] at h; cases h
      | ok ops =>
        rw [h3, exbind_ok] at h
        cases h
        exact ⟨ops, generateSchemeSubroutineCallOps_shape _ tbl dataOps ops h3, rfl⟩

theorem schemeCallFold_shape (metaFnSigs : List (String × FuncDecl)) (tgt : String)
    (argTables : List (String × CCPPArgumentTable)) (dataOps : List (String × MemTy)) :
    ∀ (names : List String) (acc res : List SOp × List (String × FuncDecl)),
      names.foldlM (schemeCallStep metaFnSigs tgt argTables dataOps) acc = .ok res →
      ∃ groups, List.Forall₂ (fun sn grp => schemeGroupShape (sn ++ tgt) grp) names groups ∧
        res.1 = acc.1 ++ groups.flatten := by
  intro names
  induction names with
  | nil =>
    intro acc res h
    rw [List.foldlM_nil, expure] at h
    cases h
    exact ⟨[], List.Forall₂.nil, by simp⟩
  | cons sn rest ih =>
    intro acc res h
    rw [List.foldlM_cons] at h
    cases hs : schemeCallStep metaFnSigs tgt argTables dataOps acc sn with
    | error e => rw [hs, exbind_error] at h; cases h
    | ok acc' =>
      rw [hs, exbind_ok] at h
      obtain ⟨groups, hfa, hres⟩ := ih acc' res h
      obtain ⟨ops, hshape, hacc⟩ := schemeCallStep_char metaFnSigs tgt argTables dataOps acc sn acc' hs
      refine ⟨ops :: groups, List.Forall₂.cons hshape hfa, ?_⟩
      rw [hres, hacc, List.flatten_cons, List.append_assoc]

theorem generateVariableInitialisations_char (dataOps : List (String × MemTy))
    (init : List SOp) (h : generateVariableInitialisations dataOps = .ok init) :
    init = initShape ∧ alookup dataOps "errflg" ≠ none := by
  unfold generateVariableInitialisations at h
  cases he : alookup dataOps "errflg" with
  | none => rw [he] at h; cases h
  | some ty => rw [he] at h; cases h; exact ⟨rfl, by simp [he]⟩

/-- Structure of every successfully generated phase subroutine: the body is
the allocas (one per required variable, in first-seen order), the `errflg`
initialisation, the flat concatenation of the per-scheme guarded groups
(one per scheme, in flattened suite order), and the terminal return of all
slots; the subroutine has no inputs and one output per slot. -/
theorem generateSubroutineCall_structure
    (metaData : List (String × CCPPTableProperties)) (metaFnSigs : List (String × FuncDecl))
    (suite : XMLSuite) (tgt : String) (genOpt : Option String)
    (fn : FuncOp) (sigs : List FuncDecl)
    (h : generateSubroutineCall metaData metaFnSigs suite tgt genOpt = .ok (fn, sigs)) :
    ∃ dataOps groups,
      List.Forall₂ (fun sn grp => schemeGroupShape (sn ++ tgt) grp)
        (getSchemeNames suite) groups ∧
      alookup dataOps "errflg" ≠ none ∧
      fn.body = dataOps.map (fun p => SOp.alloca p.1 p.2) ++ initShape
        ++ groups.flatten ++ [SOp.returnOp (dataOps.map (·.1))] ∧
      fn.inputs = [] ∧ fn.outputs = dataOps.map (·.2) := by
  unfold generateSubroutineCall at h
  simp only [] at h
  cases h1 : resolveArgTables metaData tgt (getSchemeNames suite) with
  | error e => rw [h1, exbind_error] at h; cases h
  | ok argTables =>
    rw [h1, exbind_ok] at h
    cases h2 : generateVariableCreation (getSchemeNames suite) argTables with
    | error e => rw [h2, exbind_error] at h; cases h
    | ok dataOps =>
      rw [h2, exbind_ok] at h
      cases h3 : generateVariableInitialisations dataOps with
      | error e => rw [h3, exbind_error] at h; cases h
      | ok initOps =>
        rw [h3, exbind_ok] at h
        cases h4 : (getSchemeNames suite).foldlM
            (schemeCallStep metaFnSigs tgt argTables dataOps) ([], []) with
        | error e => rw [h4, exbind_error] at h; cases h
        | ok acc =>
          rw [h4, exbind_ok, expure] at h
          obtain ⟨hinit, herr⟩ := generateVariableInitialisations_char dataOps initOps h3
          obtain ⟨groups, hfa, hcall⟩ :=
            schemeCallFold_shape metaFnSigs tgt argTables dataOps
              (getSchemeNames suite) ([], []) acc h4
          cases h
          refine ⟨dataOps, groups, hfa, herr, ?_, rfl, rfl⟩
          simp only [hinit, hcall]
          simp

/-! ## Conditional-depth lemmas -/

theorem condDepthList_append (a b : List SOp) :
    condDepthList (a ++ b) = Nat.max (condDepthList a) (condDepthList b) := by
  induction a with
  | nil => simp [condDepthList]
  | cons o rest ih => simp [condDepthList, ih, Nat.max_assoc]

theorem condDepthList_zero (l : List SOp) (h : ∀ op ∈ l, condDepth op = 0) :
    condDepthList l = 0 := by
  induction l with
  | nil => rfl
  | cons o rest ih =>
    simp only [condDepthList, h o (List.mem_cons_self o rest), Nat.zero_max]
    exact ih (fun op hop => h op (List.mem_cons_of_mem o hop))

theorem schemeGroupShape_depth (callee : String) (ops : List SOp)
    (h : schemeGroupShape callee ops) : condDepthList ops = 1 := by
  obtain ⟨ins, outs, tr, hlen, rfl⟩ := h
  have hthen : condDepthList
      ([SOp.callOp callee ins outs]
        ++ tr.enum.map (fun p => SOp.copyOp p.1 p.2) ++ [SOp.yieldOp]) = 0 := by
    apply condDepthList_zero
    intro op hop
    simp only [List.mem_append, List.mem_singleton, List.mem_map] at hop
    rcases hop with (h1 | ⟨p, _, h2⟩) | h3
    · rw [h1]; rfl
    · rw [← h2]; rfl
    · rw [h3]; rfl
  have hrest : condDepthList
      (tr.enum.map (fun p => SOp.copyOp p.1 p.2) ++ [SOp.yieldOp]) = 0 := by
    apply condDepthList_zero
    intro op hop
    simp only [List.mem_append, List.mem_singleton, List.mem_map] at hop
    rcases hop with ⟨p, _, h2⟩ | h3
    · rw [← h2]; rfl
    · rw [h3]; rfl
  simp [condDepthList, condDepth, hrest]

theorem flatten_depth (tgt : String) :
    ∀ (names : List String) (groups : List (List SOp)),
      List.Forall₂ (fun sn grp => schemeGroupShape (sn ++ tgt) grp) names groups →
      names ≠ [] → condDepthList groups.flatten = 1 := by
  intro names groups hfa
  induction hfa with
  | nil => intro hne; exact absurd rfl hne
  | @cons sn g sns gs hshape htail ih =>
    intro _
    rw [List.flatten_cons, condDepthList_append,
        schemeGroupShape_depth (sn ++ tgt) g hshape]
    cases htail with
    | nil => simp [condDepthList]
    | cons hshape' htail' =>
      rw [ih (by simp)]
      exact Nat.max_self 1

/-! ## Execution lemmas: serial short-circuit behaviour -/

theorem execOps_append (sf : String → List Int → List Int) (a b : List SOp) (s : ExecState) :
    execOps sf (a ++ b) s = execOps sf b (execOps sf a s) := by
  induction a generalizing s with
  | nil => rfl
  | cons o rest ih => simp [execOps, ih]

theorem execOps_no_calls (sf : String → List Int → List Int) :
    ∀ (ops : List SOp) (s : ExecState),
      (∀ op ∈ ops, (∃ i d, op = SOp.copyOp i d) ∨ op = SOp.yieldOp) →
      (execOps sf ops s).calls = s.calls := by
  intro ops
  induction ops with
  | nil => intro s _; rfl
  | cons op rest ih =>
    intro s h
    have hrest := fun o ho => h o (List.mem_cons_of_mem op ho)
    rcases h op (List.mem_cons_self op rest) with ⟨i, d, rfl⟩ | rfl
    · rw [show execOps sf (SOp.copyOp i d :: rest) s
          = execOps sf rest (execOp sf (SOp.copyOp i d) s) from rfl]
      rw [ih _ hrest]
      rfl
    · rw [show execOps sf (SOp.yieldOp :: rest) s
          = execOps sf rest (execOp sf SOp.yieldOp s) from rfl]
      rw [ih _ hrest]
      rfl

theorem execOps_group_skip (sf : String → List Int → List Int) (callee : String)
    (g : List SOp) (s : ExecState) (hshape : schemeGroupShape callee g)
    (h : s.env "errflg" ≠ 0) : execOps sf g s = s := by
  obtain ⟨ins, outs, tr, hlen, rfl⟩ := hshape
  simp [execOps, execOp, cmpiEval, h]

theorem execOps_flatten_skip (sf : String → List Int → List Int) (tgt : String) :
    ∀ (names : List String) (groups : List (List SOp)),
      List.Forall₂ (fun sn grp => schemeGroupShape (sn ++ tgt) grp) names groups →
      ∀ s, s.env "errflg" ≠ 0 → execOps sf groups.flatten s = s := by
  intro names groups hfa
  induction hfa with
  | nil => intro s _; rfl
  | @cons sn g sns gs hshape htail ih =>
    intro s he
    rw [List.flatten_cons, execOps_append,
        execOps_group_skip sf (sn ++ tgt) g s hshape he, ih s he]

theorem execOps_group_run (sf : String → List Int → List Int) (callee : String)
    (g : List SOp) (s : ExecState) (hshape : schemeGroupShape callee g)
    (h : s.env "errflg" = 0) :
    (execOps sf g s).calls = s.calls ++ [callee] := by
  obtain ⟨ins, outs, tr, hlen, rfl⟩ := hshape
  simp only [execOps, execOp]
  rw [if_pos (by simp [cmpiEval, h])]
  show (execOps sf (tr.enum.map (fun p => SOp.copyOp p.1 p.2) ++ [SOp.yieldOp])
      { env := s.env, lastResults := sf callee (ins.map s.env),
        calls := s.calls ++ [callee] }).calls = s.calls ++ [callee]
  rw [execOps_no_calls sf _ _
    (by intro op hop
        simp only [List.mem_append, List.mem_singleton, List.mem_map] at hop
        rcases hop with ⟨p, _, h2⟩ | h3
        · exact Or.inl ⟨p.1, p.2, h2.symm⟩
        · exact Or.inr h3)]

/-- Executing the flat sequence of guarded groups invokes a prefix of the
schemes: some `k` schemes run, in order, and if `k` is not all of them the
error flag is non-zero afterwards (the serial short-circuit property). -/
theorem execOps_flatten_prefix (sf : String → List Int → List Int) (tgt : String) :
    ∀ (names : List String) (groups : List (List SOp)),
      List.Forall₂ (fun sn grp => schemeGroupShape (sn ++ tgt) grp) names groups →
      ∀ s, ∃ k, k ≤ names.length ∧
        (execOps sf groups.flatten s).calls
          = s.calls ++ (names.map (· ++ tgt)).take k ∧
        (k < names.length → (execOps sf groups.flatten s).env "errflg" ≠ 0) := by
  intro names groups hfa
  induction hfa with
  | nil =>
    intro s
    exact ⟨0, Nat.le_refl 0, by simp [execOps], fun hk => absurd hk (by simp)⟩
  | @cons sn g sns gs hshape htail ih =>
    intro s
    by_cases he : s.env "errflg" = 0
    · rw [List.flatten_cons, execOps_append]
      obtain ⟨k, hk, hck, hek⟩ := ih (execOps sf g s)
      have hcalls := execOps_group_run sf (sn ++ tgt) g s hshape he
      refine ⟨k + 1, by simp [Nat.succ_le_succ hk], ?_, ?_⟩
      · rw [hck, hcalls]
        simp [List.take_succ_cons]
      · intro hlt
        exact hek (by simpa using Nat.lt_of_succ_lt_succ (by simpa using hlt))
    · rw [List.flatten_cons, execOps_append,
          execOps_group_skip sf (sn ++ tgt) g s hshape he,
          execOps_flatten_skip sf tgt sns gs htail s he]
      exact ⟨0, Nat.zero_le _, by simp, fun _ => he⟩

/-! ## Claim theorems -/

/-- C6: in the body of every successfully generated phase subroutine, the
ops immediately after the allocas are the 32-bit literal-zero constant and
its store into the `errflg` slot, and each scheme's call together with its
copy-back ops (plus the region terminator) is wrapped in a conditional whose
test compares a fresh load of the `errflg` slot against the literal zero
with predicate `eq`, whose then-region is exactly that call-and-copy
sequence, and whose else-region is empty (`schemeGroupShape`). -/
theorem C6_errflg_init_and_guards
    (metaData : List (String × CCPPTableProperties)) (metaFnSigs : List (String × FuncDecl))
    (suite : XMLSuite) (tgt : String) (genOpt : Option String)
    (fn : FuncOp) (sigs : List FuncDecl)
    (h : generateSubroutineCall metaData metaFnSigs suite tgt genOpt = .ok (fn, sigs)) :
    ∃ (dataOps : List (String × MemTy)) (groups : List (List SOp)),
      fn.body = dataOps.map (fun p => SOp.alloca p.1 p.2)
        ++ [SOp.constantOp 0 32, SOp.storeOp 0 "errflg" []]
        ++ groups.flatten ++ [SOp.returnOp (dataOps.map (·.1))] ∧
      List.Forall₂ (fun sn grp => schemeGroupShape (sn ++ tgt) grp)
        (getSchemeNames suite) groups := by
  obtain ⟨dataOps, groups, hfa, _, hbody, _, _⟩ :=
    generateSubroutineCall_structure metaData metaFnSigs suite tgt genOpt fn sigs h
  exact ⟨dataOps, groups, by simpa [initShape] using hbody, hfa⟩

/-- Witness for C6 at the concrete two-scheme scenario. -/
theorem C6_errflg_init_and_guards_witness : ∃ fn sigs,
    generateSubroutineCall metaAB sigsAB suiteS "_init" (some "_initialize")
      = .ok (fn, sigs) ∧
    ∃ (dataOps : List (String × MemTy)) (groups : List (List SOp)),
      fn.body = dataOps.map (fun p => SOp.alloca p.1 p.2)
        ++ [SOp.constantOp 0 32, SOp.storeOp 0 "errflg" []]
        ++ groups.flatten ++ [SOp.returnOp (dataOps.map (·.1))] ∧
      List.Forall₂ (fun sn grp => schemeGroupShape (sn ++ "_init") grp)
        (getSchemeNames suiteS) groups := by
  cases hg : generateSubroutineCall metaAB sigsAB suiteS "_init" (some "_initialize") with
  | error e =>
    have hok : exIsOk (generateSubroutineCall metaAB sigsAB suiteS "_init"
        (some "_initialize")) = true := by decide
    rw [hg] at hok
    simp [exIsOk] at hok
  | ok p =>
    obtain ⟨fn, sigs⟩ := p
    exact ⟨fn, sigs, rfl,
      C6_errflg_init_and_guards metaAB sigsAB suiteS "_init" (some "_initialize")
        fn sigs hg⟩

/-- C1 counterexample: the two-scheme suite flattens to 2 schemes, yet the
generated subroutine's conditional nesting depth is 1, not 2 — the guards
are appended flat (`call_ops += ...`), not nested inside each other. -/
theorem C1_nesting_depth_counterexample :
    genABdepth = 1 ∧ (getSchemeNames suiteS).length = 2 ∧ genABdepth ≠ 2 := by
  decide

/-- C1 amended: the conditional guarding each scheme is emitted as a sibling
of the previous scheme's conditional in one flat sequence (the body is the
flat concatenation of the per-scheme groups), so the conditional nesting
depth equals 1 for any non-empty scheme list — not N; the serial
short-circuit behaviour still holds because every scheme's conditional
re-tests `errflg == 0`: under any scheme semantics, execution performs a
prefix of the scheme calls, skips everything once `errflg` is non-zero, and
stops early only with a non-zero `errflg`. -/
theorem C1_flat_sibling_guards
    (metaData : List (String × CCPPTableProperties)) (metaFnSigs : List (String × FuncDecl))
    (suite : XMLSuite) (tgt : String) (genOpt : Option String)
    (fn : FuncOp) (sigs : List FuncDecl)
    (h : generateSubroutineCall metaData metaFnSigs suite tgt genOpt = .ok (fn, sigs))
    (hne : getSchemeNames suite ≠ []) :
    ∃ (dataOps : List (String × MemTy)) (groups : List (List SOp)),
      fn.body = dataOps.map (fun p => SOp.alloca p.1 p.2) ++ initShape
        ++ groups.flatten ++ [SOp.returnOp (dataOps.map (·.1))] ∧
      List.Forall₂ (fun sn grp => schemeGroupShape (sn ++ tgt) grp)
        (getSchemeNames suite) groups ∧
      condDepthList fn.body = 1 ∧
      (∀ (sf : String → List Int → List Int) (s : ExecState),
        s.env "errflg" ≠ 0 → execOps sf groups.flatten s = s) ∧
      (∀ (sf : String → List Int → List Int) (s : ExecState),
        ∃ k, k ≤ (getSchemeNames suite).length ∧
          (execOps sf groups.flatten s).calls
            = s.calls ++ ((getSchemeNames suite).map (· ++ tgt)).take k ∧
          (k < (getSchemeNames suite).length →
            (execOps sf groups.flatten s).env "errflg" ≠ 0)) := by
  obtain ⟨dataOps, groups, hfa, herr, hbody, hin, hout⟩ :=
    generateSubroutineCall_structure metaData metaFnSigs suite tgt genOpt fn sigs h
  refine ⟨dataOps, groups, hbody, hfa, ?_, ?_, ?_⟩
  · rw [hbody, condDepthList_append, condDepthList_append, condDepthList_append]
    have h1 : condDepthList (dataOps.map (fun p => SOp.alloca p.1 p.2)) = 0 :=
      condDepthList_zero _ (by
        intro op hop
        obtain ⟨p, _, hp⟩ := List.mem_map.1 hop
        rw [← hp]; rfl)
    have h2 : condDepthList initShape = 0 := rfl
    have h3 := flatten_depth tgt _ groups hfa hne
    have h4 : condDepthList [SOp.returnOp (dataOps.map (·.1))] = 0 := rfl
    rw [h1, h2, h3, h4]
    rfl
  · intro sf s hs
    exact execOps_flatten_skip sf tgt _ groups hfa s hs
  · intro sf s
    exact execOps_flatten_prefix sf tgt _ groups hfa s

/-- Witness for the amended C1 at the concrete two-scheme scenario. -/
theorem C1_flat_sibling_guards_witness : ∃ fn sigs,
    generateSubroutineCall metaAB sigsAB suiteS "_init" (some "_initialize")
      = .ok (fn, sigs) ∧
    ∃ (dataOps : List (String × MemTy)) (groups : List (List SOp)),
      fn.body = dataOps.map (fun p => SOp.alloca p.1 p.2) ++ initShape
        ++ groups.flatten ++ [SOp.returnOp (dataOps.map (·.1))] ∧
      List.Forall₂ (fun sn grp => schemeGroupShape (sn ++ "_init") grp)
        (getSchemeNames suiteS) groups ∧
      condDepthList fn.body = 1 ∧
      (∀ (sf : String → List Int → List Int) (s : ExecState),
        s.env "errflg" ≠ 0 → execOps sf groups.flatten s = s) ∧
      (∀ (sf : String → List Int → List Int) (s : ExecState),
        ∃ k, k ≤ (getSchemeNames suiteS).length ∧
          (execOps sf groups.flatten s).calls
            = s.calls ++ ((getSchemeNames suiteS).map (· ++ "_init")).take k ∧
          (k < (getSchemeNames suiteS).length →
            (execOps sf groups.flatten s).env "errflg" ≠ 0)) := by
  cases hg : generateSubroutineCall metaAB sigsAB suiteS "_init" (some "_initialize") with
  | error e =>
    have hok : exIsOk (generateSubroutineCall metaAB sigsAB suiteS "_init"
        (some "_initialize")) = true := by decide
    rw [hg] at hok
    simp [exIsOk] at hok
  | ok p =>
    obtain ⟨fn, sigs⟩ := p
    exact ⟨fn, sigs, rfl,
      C1_flat_sibling_guards metaAB sigsAB suiteS "_init" (some "_initialize")
        fn sigs hg (by decide)⟩

/-- C9: `generate_phase` is deterministic — for one fixed suite descriptor,
metadata pool and signature pool, any two successful runs yield the same
subroutine (same body, hence same variable set, order and nesting) and the
same declaration stubs.  In this embedding the generator is a pure function
of its inputs (every Python iteration it performs is over insertion-ordered
dicts or lists), so the two results coincide. -/
theorem C9_deterministic
    (metaData : List (String × CCPPTableProperties)) (metaFnSigs : List (String × FuncDecl))
    (suite : XMLSuite) (tgt : String) (genOpt : Option String)
    (r1 r2 : FuncOp × List FuncDecl)
    (h1 : generateSubroutineCall metaData metaFnSigs suite tgt genOpt = .ok r1)
    (h2 : generateSubroutineCall metaData metaFnSigs suite tgt genOpt = .ok r2) :
    r1.1.body = r2.1.body ∧ r1.1.outputs = r2.1.outputs ∧ r1 = r2 := by
  rw [h1] at h2
  cases h2
  exact ⟨rfl, rfl, rfl⟩

/-- Witness for C9: two runs on the two-scheme scenario. -/
theorem C9_deterministic_witness : ∃ r,
    generateSubroutineCall metaAB sigsAB suiteS "_init" (some "_initialize") = .ok r ∧
    (r.1.body = r.1.body ∧ r.1.outputs = r.1.outputs ∧ r = r) := by
  cases hg : generateSubroutineCall metaAB sigsAB suiteS "_init" (some "_initialize") with
  | error e =>
    have hok : exIsOk (generateSubroutineCall metaAB sigsAB suiteS "_init"
        (some "_initialize")) = true := by decide
    rw [hg] at hok
    simp [exIsOk] at hok
  | ok p =>
    exact ⟨p, rfl,
      C9_deterministic metaAB sigsAB suiteS "_init" (some "_initialize") p p hg hg⟩

/-! ## Cross-scheme type-consistency lemmas (C4) -/

theorem alookup_append_of_some {α : Type} {l : List (String × α)} {k : String} {v : α}
    (l' : List (String × α)) (h : alookup l k = some v) :
    alookup (l ++ l') k = some v := by
  induction l with
  | nil => cases h
  | cons p rest ih =>
    simp only [alookup] at h ⊢
    by_cases hp : p.1 = k
    · cases p; simp_all [alookup]
    · cases p; simp_all [alookup]

theorem alookup_append_self_str {α : Type} {l : List (String × α)} {k : String} {v : α}
    (h : alookup l k = none) : alookup (l ++ [(k, v)]) k = some v := by
  induction l with
  | nil => simp [alookup]
  | cons p rest ih =>
    simp only [alookup] at h ⊢
    by_cases hp : p.1 = k
    · cases p; simp_all [alookup]
    · cases p; simp_all [alookup]

theorem requireArg_preserves (acc : List (String × CCPPArgument)) (a : CCPPArgument)
    (acc' : List (String × CCPPArgument)) (h : requireArg acc a = .ok acc')
    (k : String) (v : CCPPArgument) (hk : alookup acc k = some v) :
    alookup acc' k = some v := by
  unfold requireArg at h
  cases hs : alookup acc a.name with
  | some stored =>
    simp only [hs] at h
    cases h1 : a.getAttr "type" with
    | error e => rw [h1, exbind_error] at h; cases h
    | ok tNew =>
      rw [h1, exbind_ok] at h
      cases h2 : stored.getAttr "type" with
      | error e => rw [h2, exbind_error] at h; cases h
      | ok tOld =>
        rw [h2, exbind_ok] at h
        by_cases he : tNew = tOld
        · rw [if_pos he, expure] at h; cases h; exact hk
        · rw [if_neg he] at h; cases h
  | none =>
    simp only [hs, expure] at h
    cases h
    exact alookup_append_of_some _ hk

theorem requireArg_spec (acc : List (String × CCPPArgument)) (a : CCPPArgument)
    (acc' : List (String × CCPPArgument)) (h : requireArg acc a = .ok acc') :
    ∃ stored, alookup acc' a.name = some stored ∧
      stored.getAttr "type" = a.getAttr "type" := by
  unfold requireArg at h
  cases hs : alookup acc a.name with
  | some stored =>
    simp only [hs] at h
    cases h1 : a.getAttr "type" with
    | error e => rw [h1, exbind_error] at h; cases h
    | ok tNew =>
      rw [h1, exbind_ok] at h
      cases h2 : stored.getAttr "type" with
      | error e => rw [h2, exbind_error] at h; cases h
      | ok tOld =>
        rw [h2, exbind_ok] at h
        by_cases he : tNew = tOld
        · rw [if_pos he, expure] at h
          cases h
          exact ⟨stored, hs, by simp [h1, h2, he]⟩
        · rw [if_neg he] at h; cases h
  | none =>
    simp only [hs, expure] at h
    cases h
    exact ⟨a, alookup_append_self_str hs, rfl⟩

theorem argsFold_preserves (args : List CCPPArgument) :
    ∀ (acc res : List (String × CCPPArgument)),
      args.foldlM requireArg acc = .ok res →
      ∀ k v, alookup acc k = some v → alookup res k = some v := by
  induction args with
  | nil =>
    intro acc res h k v hk
    rw [List.foldlM_nil, expure] at h
    cases h
    exact hk
  | cons a rest ih =>
    intro acc res h k v hk
    rw [List.foldlM_cons] at h
    cases hs : requireArg acc a with
    | error e => rw [hs, exbind_error] at h; cases h
    | ok acc' =>
      rw [hs, exbind_ok] at h
      exact ih acc' res h k v (requireArg_preserves acc a acc' hs k v hk)

theorem argsFold_spec (args : List CCPPArgument) :
    ∀ (acc res : List (String × CCPPArgument)),
      args.foldlM requireArg acc = .ok res →
      ∀ a ∈ args, ∃ stored, alookup res a.name = some stored ∧
        stored.getAttr "type" = a.getAttr "type" := by
  induction args with
  | nil => intro acc res _ a ha; cases ha
  | cons a0 rest ih =>
    intro acc res h a ha
    rw [List.foldlM_cons] at h
    cases hs : requireArg acc a0 with
    | error e => rw [hs, exbind_error] at h; cases h
    | ok acc' =>
      rw [hs, exbind_ok] at h
      rcases List.mem_cons.1 ha with rfl | hmem
      · obtain ⟨stored, hst, hty⟩ := requireArg_spec acc a acc' hs
        exact ⟨stored, argsFold_preserves rest acc' res h a.name stored hst, hty⟩
      · exact ih acc' res h a hmem

theorem requireSchemeArgs_preserves (argTables : List (String × CCPPArgumentTable))
    (acc : List (String × CCPPArgument)) (sn : String)
    (res : List (String × CCPPArgument))
    (h : requireSchemeArgs argTables acc sn = .ok res)
    (k : String) (v : CCPPArgument) (hk : alookup acc k = some v) :
    alookup res k = some v := by
  unfold requireSchemeArgs at h
  cases h0 : alookup argTables sn with
  | none => simp only [h0, exbind_error] at h; cases h
  | some tbl =>
    simp only [h0, expure, exbind_ok] at h
    exact argsFold_preserves tbl.args acc res h k v hk

theorem schemesFold_preserves (argTables : List (String × CCPPArgumentTable)) :
    ∀ (schemeNames : List String) (acc res : List (String × CCPPArgument)),
      schemeNames.foldlM (requireSchemeArgs argTables) acc = .ok res →
      ∀ k v, alookup acc k = some v → alookup res k = some v := by
  intro schemeNames
  induction schemeNames with
  | nil =>
    intro acc res h k v hk
    rw [List.foldlM_nil, expure] at h
    cases h
    exact hk
  | cons sn0 rest ih =>
    intro acc res h k v hk
    rw [List.foldlM_cons] at h
    cases hs : requireSchemeArgs argTables acc sn0 with
    | error e => rw [hs, exbind_error] at h; cases h
    | ok acc' =>
      rw [hs, exbind_ok] at h
      exact ih acc' res h k v (requireSchemeArgs_preserves argTables acc sn0 acc' hs k v hk)

theorem requireSchemeArgs_spec (argTables : List (String × CCPPArgumentTable))
    (acc : List (String × CCPPArgument)) (sn : String)
    (res : List (String × CCPPArgument))
    (h : requireSchemeArgs argTables acc sn = .ok res)
    (tbl : CCPPArgumentTable) (htbl : alookup argTables sn = some tbl) :
    ∀ a ∈ tbl.args, ∃ stored, alookup res a.name = some stored ∧
      stored.getAttr "type" = a.getAttr "type" := by
  unfold requireSchemeArgs at h
  simp only [htbl, expure, exbind_ok] at h
  exact argsFold_spec tbl.args acc res h

/-- After a successful `args_required` pass, every argument of every scheme
used agrees (on the `type` attribute) with the stored first occurrence of
its name. -/
theorem buildArgsRequired_spec (argTables : List (String × CCPPArgumentTable)) :
    ∀ (schemeNames : List String) (acc res : List (String × CCPPArgument)),
      schemeNames.foldlM (requireSchemeArgs argTables) acc = .ok res →
      ∀ sn ∈ schemeNames, ∀ tbl, alookup argTables sn = some tbl →
        ∀ a ∈ tbl.args, ∃ stored, alookup res a.name = some stored ∧
          stored.getAttr "type" = a.getAttr "type" := by
  intro schemeNames
  induction schemeNames with
  | nil => intro acc res _ sn hsn; cases hsn
  | cons sn0 rest ih =>
    intro acc res h sn hsn tbl htbl a ha
    rw [List.foldlM_cons] at h
    cases hs : requireSchemeArgs argTables acc sn0 with
    | error e => rw [hs, exbind_error] at h; cases h
    | ok acc' =>
      rw [hs, exbind_ok] at h
      rcases List.mem_cons.1 hsn with rfl | hmem
      · obtain ⟨stored, hst, hty⟩ := requireSchemeArgs_spec argTables acc sn acc' hs tbl htbl a ha
        exact ⟨stored, schemesFold_preserves argTables rest acc' res h a.name stored hst, hty⟩
      · exact ih acc' res h sn hmem tbl htbl a ha

/-- C4 counterexample: the two schemes `K1_init`/`K2_init` declare `x` with
the same type (`character`) but different kinds (`len=3` vs `len=5`), and
`generate_phase` succeeds — the kind is never compared, so a kind mismatch
is not fatal (only the declared type is checked). -/
theorem C4_kind_mismatch_counterexample :
    (∃ a1 ∈ tblK1.args, ∃ a2 ∈ tblK2.args,
      a1.name = a2.name ∧ a1.getAttr "type" = a2.getAttr "type" ∧
      a1.getAttr "kind" ≠ a2.getAttr "kind") ∧
    exIsOk genKK = true := by
  decide

/-- C4 amended: within one generated subroutine, two schemes that reference
an argument of the same name must agree exactly on the declared type — a
type mismatch makes `generate_phase` fail fatally with a consistency error
and produce no subroutine (equivalently: whenever a subroutine is produced,
the `type` attributes agree).  The kind is not checked. -/
theorem C4_type_agreement
    (metaData : List (String × CCPPTableProperties)) (metaFnSigs : List (String × FuncDecl))
    (suite : XMLSuite) (tgt : String) (genOpt : Option String)
    (fn : FuncOp) (sigs : List FuncDecl)
    (h : generateSubroutineCall metaData metaFnSigs suite tgt genOpt = .ok (fn, sigs))
    (argTables : List (String × CCPPArgumentTable))
    (hat : resolveArgTables metaData tgt (getSchemeNames suite) = .ok argTables)
    (sn1 sn2 : String) (hmem1 : sn1 ∈ getSchemeNames suite)
    (hmem2 : sn2 ∈ getSchemeNames suite)
    (t1 t2 : CCPPArgumentTable)
    (ht1 : alookup argTables sn1 = some t1) (ht2 : alookup argTables sn2 = some t2)
    (a1 a2 : CCPPArgument) (ha1 : a1 ∈ t1.args) (ha2 : a2 ∈ t2.args)
    (hname : a1.name = a2.name) :
    a1.getAttr "type" = a2.getAttr "type" := by
  unfold generateSubroutineCall at h
  simp only [] at h
  rw [hat, exbind_ok] at h
  cases h2c : generateVariableCreation (getSchemeNames suite) argTables with
  | error e => rw [h2c, exbind_error] at h; cases h
  | ok dataOps =>
    unfold generateVariableCreation at h2c
    cases h3 : buildArgsRequired (getSchemeNames suite) argTables with
    | error e => rw [h3, exbind_error] at h2c; cases h2c
    | ok req =>
      unfold buildArgsRequired at h3
      obtain ⟨s1, hs1, hty1⟩ :=
        buildArgsRequired_spec argTables (getSchemeNames suite) [] req h3
          sn1 hmem1 t1 ht1 a1 ha1
      obtain ⟨s2, hs2, hty2⟩ :=
        buildArgsRequired_spec argTables (getSchemeNames suite) [] req h3
          sn2 hmem2 t2 ht2 a2 ha2
      rw [hname] at hs1
      rw [hs1] at hs2
      cases hs2
      rw [← hty1, ← hty2]

/-- Witness for the amended C4 at the kind-mismatch scenario (the shared
argument `x` of the two schemes must — and does — agree on `type`). -/
theorem C4_type_agreement_witness : ∃ fn sigs,
    generateSubroutineCall metaKK sigsKK suiteKK "_init" none = .ok (fn, sigs) ∧
    CCPPArgument.getAttr ⟨"x", [("type", "character"), ("kind", "len=3"), ("intent", "in")]⟩ "type"
      = CCPPArgument.getAttr ⟨"x", [("type", "character"), ("kind", "len=5"), ("intent", "in")]⟩ "type" := by
  cases hg : generateSubroutineCall metaKK sigsKK suiteKK "_init" none with
  | error e =>
    have hok : exIsOk (generateSubroutineCall metaKK sigsKK suiteKK "_init" none) = true := by
      decide
    rw [hg] at hok
    simp [exIsOk] at hok
  | ok p =>
    obtain ⟨fn, sigs⟩ := p
    refine ⟨fn, sigs, rfl, ?_⟩
    have hat : resolveArgTables metaKK "_init" (getSchemeNames suiteKK)
        = .ok [("K1", tblK1), ("K2", tblK2)] := by decide
    exact C4_type_agreement metaKK sigsKK suiteKK "_init" none fn sigs hg
      [("K1", tblK1), ("K2", tblK2)] hat "K1" "K2" (by decide) (by decide)
      tblK1 tblK2 (by decide) (by decide)
      ⟨"x", [("type", "character"), ("kind", "len=3"), ("intent", "in")]⟩
      ⟨"x", [("type", "character"), ("kind", "len=5"), ("intent", "in")]⟩
      (by decide) (by decide) rfl

/-- C2 (code bug): for a scheme whose argument `x` has intent `inout`, the
emitted call carries `x` only as an operand and NOT among the result types
(so no copy-back for `x` is emitted), and an argument with no intent
attribute does not behave as `inout` — it makes the generator fail with an
`AssertionError` from `getAttr("intent")`.  Both contradict the intent
partition used by `generate_function_signature` (suite_meta.py), which puts
`inout` — and defaulted missing intent — in both the input and the output
list of the very declarations these calls must match. -/
theorem C2_intent_mapping_code_bug :
    generateSchemeSubroutineCallOps "P_init" tblInout dataOpsPQ
      = .ok [SOp.constantOp 0 32, SOp.cmpiOp "errflg" 0 0, SOp.loadOp "errflg" [],
             SOp.ifOp "errflg" 0 0
               [SOp.callOp "P_init" ["x"] [⟨.i32, []⟩],
                SOp.copyOp 0 "errflg", SOp.yieldOp] []] ∧
    generateSchemeSubroutineCallOps "Q_init" tblNoIntent dataOpsPQ
      = .error "assert: missing attribute intent" := by
  exact ⟨rfl, rfl⟩

/-! ## C8: duplicate argument tables are silently overwritten -/

theorem alookup_insertAssoc_self {α : Type} (l : List (String × α)) (k : String) (v : α) :
    alookup (insertAssoc l k v) k = some v := by
  induction l with
  | nil => simp [insertAssoc, alookup]
  | cons p rest ih =>
    by_cases hp : p.1 = k
    · cases p; simp_all [insertAssoc, alookup]
    · cases p; simp_all [insertAssoc, alookup]

theorem alookup_insertAssoc_other {α : Type} (l : List (String × α)) (k k' : String)
    (v : α) (h : k ≠ k') : alookup (insertAssoc l k v) k' = alookup l k' := by
  induction l with
  | nil => simp [insertAssoc, alookup, h]
  | cons p rest ih =>
    obtain ⟨pk, pv⟩ := p
    by_cases hp : pk = k
    · subst hp
      simp [insertAssoc, alookup, h]
    · simp [insertAssoc, hp, alookup, ih]

theorem traverseTableProperties_lookup_aux (name : String) :
    ∀ (tables : List CCPPArgumentTable) (acc : List (String × CCPPArgumentTable)),
      alookup (tables.foldl (fun acc t => insertAssoc acc t.name t) acc) name =
        match (tables.filter (fun t => t.name = name)).getLast? with
        | some t => some t
        | none => alookup acc name := by
  intro tables
  induction tables with
  | nil => intro acc; simp [List.foldl_nil]
  | cons t rest ih =>
    intro acc
    rw [List.foldl_cons]
    by_cases ht : t.name = name
    · rw [ih (insertAssoc acc t.name t)]
      rw [List.filter_cons_of_pos (by simp [ht])]
      cases hl : (rest.filter (fun t => t.name = name)).getLast? with
      | some t' => simp [List.getLast?_cons, hl]
      | none =>
        have : rest.filter (fun t => t.name = name) = [] :=
          List.getLast?_eq_none_iff.1 hl
        simp [List.getLast?_cons, hl, ht, alookup_insertAssoc_self]
    · rw [ih (insertAssoc acc t.name t)]
      rw [List.filter_cons_of_neg (by simp [ht])]
      cases hl : (rest.filter (fun t => t.name = name)).getLast? with
      | some t' => simp
      | none => simp [alookup_insertAssoc_other acc t.name name t ht]

/-- C8 counterexample: a metadata unit containing two argument tables that
are both named `dup` is processed without any error; the resulting
`arg_tables` mapping holds the second table — the first is silently
overwritten, no fatal error occurs. -/
theorem C8_duplicate_table_counterexample :
    traverseTableProperties [dupT1, dupT2] = [("dup", dupT2)] ∧ dupT1 ≠ dupT2 := by
  decide

/-- C8 amended: within one metadata unit any number of ArgumentTables may
share a declared name; recovery never fails, and the table recovered under
a name is the LAST table with that name in the unit (each `arg_tables[k]=v`
store overwrites the previous one). -/
theorem C8_duplicate_overwrites (tables : List CCPPArgumentTable) (name : String) :
    alookup (traverseTableProperties tables) name =
      match (tables.filter (fun t => t.name = name)).getLast? with
      | some t => some t
      | none => none := by
  unfold traverseTableProperties
  rw [traverseTableProperties_lookup_aux name tables []]
  cases (tables.filter (fun t => t.name = name)).getLast? with
  | some t => rfl
  | none => rfl

/-- C3 counterexample: a block holding a value-producing constant op
followed by a store consuming it prints exactly one line, `errflg = 0` —
the constant's result is never emitted as its own statement; its text is
inlined into the consuming assignment. -/
theorem C3_no_materialization_counterexample :
    (printBlock emitCtx
        [POp.exprOp (PExpr.constantOp (AttrVal.intAttr 0 32)),
         POp.storeOp (PExpr.constantOp (AttrVal.intAttr 0 32)) vErrflg []]).map (·.1)
      = some ["errflg = 0"] := by
  rfl

/-- C3 amended: the emitter inlines, rather than materialises, expression
operands: a value-producing expression op (constant, load, comparison)
standing in a block matches no `print_op` case and prints nothing at all,
and an assignment prints a single line with the stored value's text rendered
inline by `print_expr` — so no value-producing node's result is ever given a
statement of its own. -/
theorem C3_expressions_inlined :
    (∀ (ctx : FtnCtx) (e : PExpr), printOp ctx (POp.exprOp e) = some ([], ctx)) ∧
    (∀ (ctx : FtnCtx) (v : PExpr) (arr : SSAVal) (res : List String × FtnCtx),
      printOp ctx (POp.storeOp v arr []) = some res →
      ∃ vs : String,
        (printExpr (getVariableNameFor ctx arr).2 v).map (·.1) = some vs ∧
        res.1 = [res.2.indentPfx ++ (getVariableNameFor ctx arr).1 ++ " = " ++ vs]) := by
  constructor
  · intro ctx e
    rfl
  · intro ctx v arr res h
    unfold printOp at h
    simp only [nameAll] at h
    cases hp : printExpr (getVariableNameFor ctx arr).2 v with
    | none => rw [hp] at h; cases h
    | some p =>
      rw [hp] at h
      simp only [String.intercalate] at h
      cases h
      refine ⟨p.1, by simp [hp], ?_⟩
      simp [String.append_assoc]

/-- Witness for the amended C3: the store of the literal zero into the
`errflg` slot in the emitter context. -/
theorem C3_expressions_inlined_witness :
    ∃ vs : String,
      (printExpr (getVariableNameFor emitCtx vErrflg).2
        (PExpr.constantOp (AttrVal.intAttr 0 32))).map (·.1) = some vs ∧
      ["errflg = 0"] = ["" ++ (getVariableNameFor emitCtx vErrflg).1 ++ " = " ++ vs] := by
  have h := C3_expressions_inlined.2 emitCtx (PExpr.constantOp (AttrVal.intAttr 0 32))
    vErrflg (["errflg = 0"], emitCtx) rfl
  simpa using h

/-- C10: `print_expr` renders exactly the three supported operand kinds: any
other producing operation aborts (`assert False`, modelled `none`); a
constant always renders; a memory-region load renders as the bare buffer
variable name with the indices ignored; an integer comparison renders only
for a genuine predica index (< 10) and renders whenever the context has the
operator tables registered and both operands are constants. -/
theorem C10_print_expr_domain :
    (∀ (ctx : FtnCtx) (k : String), printExpr ctx (PExpr.otherOp k) = none) ∧
    (∀ (ctx : FtnCtx) (a : AttrVal), (printExpr ctx (PExpr.constantOp a)).isSome) ∧
    (∀ (ctx : FtnCtx) (arr : SSAVal) (idxs : List SSAVal),
      printExpr ctx (PExpr.loadOp arr idxs) = some (getVariableNameFor ctx arr)) ∧
    (∀ (ctx : FtnCtx) (pred : Nat) (l r : PExpr),
      (printExpr ctx (PExpr.cmpiOp pred l r)).isSome → pred < 10) ∧
    (∀ (ctx : FtnCtx) (pred : Nat) (r : PExpr) (k : String),
      printExpr ctx (PExpr.cmpiOp pred (PExpr.otherOp k) r) = none) ∧
    (∀ (ctx : FtnCtx) (pred : Nat) (a b : AttrVal), pred < 10 →
      (printExpr (registerBinops ctx)
        (PExpr.cmpiOp pred (PExpr.constantOp a) (PExpr.constantOp b))).isSome) := by
  refine ⟨fun ctx k => rfl, fun ctx a => rfl, fun ctx arr idxs => rfl, ?_, ?_, ?_⟩
  · intro ctx pred l r h
    unfold printExpr at h
    cases hp : CMPI_COMPARISON_OPERATIONS.get? pred with
    | none => rw [hp] at h; cases h
    | some s =>
      have := List.get?_eq_some.1 hp
      obtain ⟨hlt, _⟩ := this
      simpa [CMPI_COMPARISON_OPERATIONS] using hlt
  · intro ctx pred r k
    unfold printExpr
    cases hp : CMPI_COMPARISON_OPERATIONS.get? pred with
    | none => rfl
    | some s => rfl
  · intro ctx pred a b h
    interval_cases pred <;> rfl

/-- Witness for C10 at a concrete comparison. -/
theorem C10_print_expr_domain_witness :
    (0 : Nat) < 10 ∧
    (printExpr (registerBinops {})
      (PExpr.cmpiOp 0 (PExpr.constantOp (AttrVal.intAttr 0 32))
        (PExpr.constantOp (AttrVal.intAttr 0 32)))).isSome := by
  exact ⟨by decide,
    C10_print_expr_domain.2.2.2.2.2 {} 0 (AttrVal.intAttr 0 32) (AttrVal.intAttr 0 32)
      (by decide)⟩

/-- C5 counterexample: the counter is copied, not shared.  The child context
obtained via `descend` synthesises `v0` for a fresh value (its counter
advancing to 1), yet the parent — whose counter is still 0 after the child
returns — synthesises the very same `v0` for a different value.  Under a
counter genuinely shared with the parent, the parent's synthesis would have
produced `v1`. -/
theorem C5_counter_copied_counterexample :
    vlookup pCtx.vars vChild = none ∧
    (getVariableNameFor (descend pCtx) vChild).1 = "v0" ∧
    (getVariableNameFor (descend pCtx) vChild).2.counter = 1 ∧
    pCtx.counter = 0 ∧
    (getVariableNameFor pCtx vParent).1 = "v0" := by
  decide

/-- C5 amended: `descend` gives the child a copy of all outer bindings, a
*copy* of the parent's current counter value (not shared — the child's
increments never reach the parent), the same operator tables, and one more
indentation level; after a conditional is printed, the context the parent
continues with is exactly the one produced by rendering the condition — no
binding made inside the then/else regions survives; and the parent may
later use a hint verbatim whenever it is not taken among its own bindings,
regardless of what the child did. -/
theorem C5_descend_copy_semantics :
    (∀ ctx : FtnCtx,
      (descend ctx).vars = ctx.vars ∧
      (descend ctx).counter = ctx.counter ∧
      (descend ctx).binops = ctx.binops ∧
      (descend ctx).cmpOps = ctx.cmpOps ∧
      (descend ctx).indentPfx = ctx.indentPfx ++ INDENT) ∧
    (∀ (ctx : FtnCtx) (cond : PExpr) (t e : List POp) (res : List String × FtnCtx),
      printOp ctx (POp.ifPOp cond t e) = some res →
      ∃ cs ctx1, printExpr ctx cond = some (cs, ctx1) ∧ res.2 = ctx1) ∧
    (∀ (ctx : FtnCtx) (val : SSAVal) (h : String),
      vlookup ctx.vars val = none → h ∉ ctx.vars.map (·.2) →
      (getVariableNameFor ctx val (some h)).1 = h) := by
  refine ⟨fun ctx => ⟨rfl, rfl, rfl, rfl, rfl⟩, ?_, ?_⟩
  · intro ctx cond t e res h
    unfold printOp at h
    cases hc : printExpr ctx cond with
    | none => simp only [hc] at h; cases h
    | some p =>
      simp only [hc] at h
      cases hb : printBlock (descend p.2) t with
      | none => simp only [hb] at h; cases h
      | some q =>
        simp only [hb] at h
        by_cases he : e.isEmpty
        · rw [if_pos he] at h
          cases h
          exact ⟨p.1, p.2, rfl, rfl⟩
        · rw [if_neg he] at h
          cases hbe : printBlock (descend p.2) e with
          | none => simp only [hbe] at h; cases h
          | some w =>
            simp only [hbe] at h
            cases h
            exact ⟨p.1, p.2, rfl, rfl⟩
  · intro ctx val h hv ht
    simp only [getVariableNameFor, hv]
    rw [if_neg ht]

/-- Witness for the amended C5: verbatim reuse of a free hint in the parent,
and the conditional printing returning the parent's own context. -/
theorem C5_descend_copy_semantics_witness :
    (getVariableNameFor pCtx vChild (some "y")).1 = "y" ∧
    (∃ cs ctx1,
      printExpr emitCtx (PExpr.constantOp (AttrVal.intAttr 1 1)) = some (cs, ctx1) ∧
      ((["if (true) then", "end if"], emitCtx) : List String × FtnCtx).2 = ctx1) := by
  refine ⟨C5_descend_copy_semantics.2.2 pCtx vChild "y" (by decide) (by decide), ?_⟩
  exact C5_descend_copy_semantics.2.1 emitCtx (PExpr.constantOp (AttrVal.intAttr 1 1))
    [] [] (["if (true) then", "end if"], emitCtx) rfl

/-- The synthesised name always has the shape `<prefix><counter>`. -/
theorem freshNameAux_form (pre : String) (taken : List String) :
    ∀ (fuel c : Nat), ∃ k, (freshNameAux pre taken fuel c).1 = pre ++ Nat.repr k := by
  intro fuel
  induction fuel with
  | zero => intro c; exact ⟨c, rfl⟩
  | succ f ih =>
    intro c
    by_cases hc : pre ++ Nat.repr c ∈ taken
    · simpa [freshNameAux, hc] using ih (c + 1)
    · exact ⟨c, by simp [freshNameAux, hc]⟩

/-- C7 counterexample: when the supplied hint (`"x"`, already taken) forces
synthesis for a value carrying no name hint of its own, the synthesised
prefix is the fixed default `"v"` — the supplied hint is NOT used as the
prefix, so the name is `v0`, not `x0` as claimed. -/
theorem C7_supplied_hint_prefix_counterexample :
    vChild.nameHint = none ∧
    "x" ∈ pCtx.vars.map (·.2) ∧
    (getVariableNameFor pCtx vChild (some "x")).1 = "v0" ∧
    (getVariableNameFor pCtx vChild (some "x")).1 ≠ "x0" := by
  decide

/-- C7 amended: within one naming context, every value is assigned a name
exactly once and never reassigned; the effective hint (the supplied one,
defaulting to the value's own `name_hint`) is used verbatim if and only if
it is not already taken; otherwise a name `<prefix><counter>` is
synthesised with the counter incremented until an unused name is found,
where the prefix is the value's own `name_hint` when present and the fixed
default `"v"` otherwise — the supplied hint does not shape the prefix; and
for any request sequence, all names held in one scope chain stay pairwise
distinct. -/
theorem C7_naming_discipline :
    (∀ (ctx : FtnCtx) (val : SSAVal) (hint : Option String) (name : String),
      vlookup ctx.vars val = some name →
      getVariableNameFor ctx val hint = (name, ctx)) ∧
    (∀ (ctx : FtnCtx) (val : SSAVal) (hint : Option String) (h : String),
      vlookup ctx.vars val = none →
      (match hint with | none => val.nameHint | some h0 => some h0) = some h →
      ((getVariableNameFor ctx val hint).1 = h ↔ h ∉ ctx.vars.map (·.2))) ∧
    (∀ (ctx : FtnCtx) (val : SSAVal) (hint : Option String),
      vlookup ctx.vars val = none →
      (getVariableNameFor ctx val hint).1 ∉ ctx.vars.map (·.2)) ∧
    (∀ (ctx : FtnCtx) (val : SSAVal) (hint : Option String) (h : String),
      vlookup ctx.vars val = none →
      (match hint with | none => val.nameHint | some h0 => some h0) = some h →
      h ∈ ctx.vars.map (·.2) →
      ∃ k, (getVariableNameFor ctx val hint).1
        = (match val.nameHint with | none => "v" | some nh => nh) ++ Nat.repr k) ∧
    (∀ (ctx : FtnCtx) (val : SSAVal) (hint hint2 : Option String),
      vlookup ctx.vars val = none →
      getVariableNameFor ((getVariableNameFor ctx val hint).2) val hint2
        = ((getVariableNameFor ctx val hint).1, (getVariableNameFor ctx val hint).2)) ∧
    (∀ (ctx : FtnCtx) (requests : List (SSAVal × Option String)),
      (ctx.vars.map (·.2)).Nodup →
      (((requests.foldl (fun c p => (getVariableNameFor c p.1 p.2).2) ctx).vars.map
        (·.2)).Nodup)) := by
  refine ⟨getVariableNameFor_bound, ?_, ?_, ?_, ?_, ?_⟩
  · intro ctx val hint h hv hh
    constructor
    · intro heq ht
      exact (getVariableNameFor_unbound ctx val hint hv).1 (heq ▸ ht)
    · intro ht
      cases hint with
      | some h0 =>
        cases hh
        simp only [getVariableNameFor, hv]
        rw [if_neg ht]
      | none =>
        simp only [] at hh
        simp only [getVariableNameFor, hv, hh]
        rw [if_neg ht]
  · intro ctx val hint hv
    exact (getVariableNameFor_unbound ctx val hint hv).1
  · intro ctx val hint h hv hh hmem
    cases hint with
    | some h0 =>
      cases hh
      simp only [getVariableNameFor, hv]
      rw [if_pos hmem]
      exact freshNameAux_form _ _ _ _
    | none =>
      simp only [] at hh
      simp only [getVariableNameFor, hv, hh]
      rw [if_pos hmem]
      exact freshNameAux_form _ _ _ _
  · intro ctx val hint hint2 hv
    have h2 := (getVariableNameFor_unbound ctx val hint hv).2
    exact getVariableNameFor_bound _ val hint2 _
      (h2 ▸ vlookup_append_self ctx.vars val _ hv)
  · intro ctx requests
    induction requests generalizing ctx with
    | nil => intro h; exact h
    | cons p rest ih =>
      intro h
      exact ih _ (getVariableNameFor_nodup ctx p.1 p.2 h)

/-- Witness for the amended C7: a fold of two requests keeps all names
distinct, and a free hint is used verbatim. -/
theorem C7_naming_discipline_witness :
    ((([(vChild, some "a"), (vParent, none)] : List (SSAVal × Option String)).foldl
        (fun c p => (getVariableNameFor c p.1 p.2).2) pCtx).vars.map (·.2)).Nodup ∧
    ((getVariableNameFor pCtx vChild (some "y")).1 = "y" ↔
      "y" ∉ pCtx.vars.map (·.2)) := by
  exact ⟨C7_naming_discipline.2.2.2.2.2 pCtx [(vChild, some "a"), (vParent, none)]
      (by decide),
    C7_naming_discipline.2.1 pCtx vChild (some "y") "y" (by decide) rfl⟩

end CcppModel
